import Mathlib

/-! # Hamiltonian Monte Carlo sampler for a linear-Gaussian inverse problem

Shallow embedding of `hmc::sampler` (`src/HMC/Sampler.cpp`).

* `double` is embedded as an arbitrary linearly ordered field `K` (exact
  arithmetic); the definitions are computable and can be run on `ℚ`, the
  theorems that need analysis are stated on `ℝ`.
* `algebra_lib::vector` of dimension `n` is `Fin n → K`, `algebra_lib::matrix`
  is `Matrix (Fin m) (Fin n) K`.
* The numeric library (`exp`, `sqrt`, `Normalize`, `CholeskyDecompose`,
  `InvertLowerTriangular`) is not part of the sources and is taken as a
  parameter (`Lib`).
* The random number generator is replaced by the values it returns (`Draw`).
-/

namespace hmc

open Matrix

/-- Dense vector of the linear-algebra library. -/
abbrev Vec (n : Nat) (K : Type) := Fin n → K

/-- Prior information (`prior`): means, covariance and inverse covariance. -/
structure Prior (N : Nat) (K : Type) where
  means : Vec N K
  covariance : Matrix (Fin N) (Fin N) K
  inv_cov_m : Matrix (Fin N) (Fin N) K

/-- Observed data (`data`) with the inverse data covariance. -/
structure Data (M : Nat) (K : Type) where
  observedData : Vec M K
  inv_cov_d : Matrix (Fin M) (Fin M) K

/-- Forward operator (`ForwardModel`): `g` is the M × N design matrix. -/
structure ForwardModel (M N : Nat) (K : Type) where
  g : Matrix (Fin M) (Fin N) K

/-- Settings read by the constructor of `sampler`.  The declaration of the
settings type is not among the sources; the fields are the ones the
constructor reads, plus `temperature` of `InversionSettings`
(`linearSampler.hpp`), which the sampler never reads. -/
structure Settings (K : Type) where
  trajectorySteps : Nat
  timeStep : K
  temperature : K
  gravity : K
  proposals : Nat
  genMomKinetic : Bool
  genMomPropose : Bool
  norMom : Bool
  testBefore : Bool
  hamiltonianMonteCarlo : Bool

/-- Functions of the numeric library used by the sampler whose code is not
among the sources; they are parameters of the embedding. -/
structure Lib (N : Nat) (K : Type) where
  exp : K → K
  sqrt : K → K
  Normalize : Vec N K → Vec N K
  CholeskyDecompose : Matrix (Fin N) (Fin N) K → Matrix (Fin N) (Fin N) K
  InvertLowerTriangular : Matrix (Fin N) (Fin N) K → Matrix (Fin N) (Fin N) K

/-- Values returned by the random number generator during one proposal:
the momentum returned by `randn_Cholesky` / `randn(massMatrix)`, the model
returned by `randn(means, covariance.Trace())` and the number returned by
`randf(0.0, 1.0)`. -/
structure Draw (N : Nat) (K : Type) where
  momentum : Vec N K
  model : Vec N K
  u : K

/-- Member variables of `hmc::sampler` (the references to prior, data and
forward model are only read by the constructor and are not kept). -/
structure Sampler (N : Nat) (K : Type) where
  nt : Nat
  dt : K
  gravity : K
  proposals : Nat
  genMomKinetic : Bool
  genMomPropose : Bool
  norMom : Bool
  testBefore : Bool
  hmc : Bool
  massMatrix : Matrix (Fin N) (Fin N) K
  inverseMassMatrixDiagonal : Matrix (Fin N) (Fin N) K
  CholeskyLowerMassMatrix : Matrix (Fin N) (Fin N) K
  inverseMassMatrix : Matrix (Fin N) (Fin N) K
  proposedMomentum : Vec N K
  proposedModel : Vec N K
  currentModel : Vec N K
  currentMomentum : Vec N K
  A : Matrix (Fin N) (Fin N) K
  bT : Vec N K
  c : K

section Defs

variable {M N : Nat} {K : Type} [LinearOrderedField K]

/-- Modelled from the spec: `matrix::InvertMatrixElements(true)` of the linear-algebra
library, which is not among the sources; the spec gives the diagonal inverse
mass matrix as diag(1/M_ii), so the diagonal entries are inverted. -/
def InvertMatrixElements (m : Matrix (Fin N) (Fin N) K) : Matrix (Fin N) (Fin N) K :=
  fun i j => if i = j then (m i j)⁻¹ else m i j

/-- Modelled from the spec: `matrix::Trace()` of the linear-algebra library, which is
not among the sources; its result is used as a vector holding the diagonal entries
("take only diagonal entries" in `montecarlo.cpp`). -/
def Trace (m : Matrix (Fin N) (Fin N) K) : Vec N K := fun i => m i i

/-- Modelled from the spec: `algebra_lib::VectorToDiagonal`, which is not among the
sources; the diagonal matrix with the given diagonal. -/
def VectorToDiagonal (v : Vec N K) : Matrix (Fin N) (Fin N) K := Matrix.diagonal v

/-- The constructor `sampler::sampler` (Sampler.cpp lines 14-55).  `d0` holds
the momentum and the model returned by the two `randn` calls. -/
def sampler (lib : Lib N K) (prior : Prior N K) (data : Data M K) (model : ForwardModel M N K)
    (settings : Settings K) (d0 : Draw N K) : Sampler N K :=
  let massMatrix : Matrix (Fin N) (Fin N) K :=
    settings.gravity • (prior.inv_cov_m + ((model.gᵀ * data.inv_cov_d) * model.g))
  let inverseMassMatrixDiagonal : Matrix (Fin N) (Fin N) K :=
    VectorToDiagonal (Trace (InvertMatrixElements massMatrix))
  let CholeskyLowerMassMatrix := lib.CholeskyDecompose massMatrix
  let InverseCholeskyLowerMassMatrix := lib.InvertLowerTriangular CholeskyLowerMassMatrix
  let inverseMassMatrix := InverseCholeskyLowerMassMatrixᵀ * InverseCholeskyLowerMassMatrix
  let proposedMomentum0 := d0.momentum
  let proposedMomentum := if settings.norMom then lib.Normalize proposedMomentum0 else proposedMomentum0
  let proposedModel := d0.model
  { nt := settings.trajectorySteps
    dt := settings.timeStep
    gravity := settings.gravity
    proposals := settings.proposals
    genMomKinetic := settings.genMomKinetic
    genMomPropose := settings.genMomPropose
    norMom := settings.norMom
    testBefore := settings.testBefore
    hmc := settings.hamiltonianMonteCarlo
    massMatrix := massMatrix
    inverseMassMatrixDiagonal := inverseMassMatrixDiagonal
    CholeskyLowerMassMatrix := CholeskyLowerMassMatrix
    inverseMassMatrix := inverseMassMatrix
    proposedMomentum := proposedMomentum
    proposedModel := proposedModel
    currentModel := proposedModel
    currentMomentum := proposedMomentum
    A := prior.inv_cov_m + model.gᵀ * data.inv_cov_d * model.g
    bT := prior.inv_cov_m *ᵥ prior.means + (model.gᵀ * data.inv_cov_d) *ᵥ data.observedData
    c := (1 / 2) * ((prior.means ᵥ* prior.inv_cov_m) ⬝ᵥ prior.means +
          (data.observedData ᵥ* data.inv_cov_d) ⬝ᵥ data.observedData) }

/-- Member `sampler::propose_metropolis`: the proposed model becomes the model drawn from the prior. -/
def propose_metropolis (s : Sampler N K) (d : Draw N K) : Sampler N K :=
  { s with proposedModel := d.model }

/-- Member `sampler::propose_hamilton`: a fresh momentum is drawn and, when
`norMom` is set, rescaled to the length of the current momentum. -/
def propose_hamilton (lib : Lib N K) (s : Sampler N K) (d : Draw N K) : Sampler N K :=
  let s1 := { s with proposedMomentum := d.momentum }
  if s1.norMom then
    { s1 with proposedMomentum :=
        lib.sqrt (s1.currentMomentum ⬝ᵥ s1.currentMomentum) • lib.Normalize s1.proposedMomentum }
  else s1

/-- Member `sampler::precomp_misfit`: `0.5 * m * (A * m) - bT * m + c` at the proposed model. -/
def precomp_misfit (s : Sampler N K) : K :=
  ((1 / 2 : K) • s.proposedModel) ⬝ᵥ (s.A *ᵥ s.proposedModel) - s.bT ⬝ᵥ s.proposedModel + s.c

/-- Member `sampler::precomp_misfitGrad()`: `A * m - bT` at the proposed model. -/
def precomp_misfitGrad (s : Sampler N K) : Vec N K :=
  s.A *ᵥ s.proposedModel - s.bT

/-- Overload `sampler::precomp_misfitGrad(vector)`: `A * parameters - bT`. -/
def precomp_misfitGradAt (s : Sampler N K) (parameters : Vec N K) : Vec N K :=
  s.A *ᵥ parameters - s.bT

/-- The inverse mass matrix selected by `_genMomKinetic` (full or diagonal). -/
def kineticMatrix (s : Sampler N K) : Matrix (Fin N) (Fin N) K :=
  if s.genMomKinetic then s.inverseMassMatrix else s.inverseMassMatrixDiagonal

/-- Member `sampler::kineticEnergy`: `0.5 * pᵀ * W * p` at the proposed momentum. -/
def kineticEnergy (s : Sampler N K) : K :=
  if s.genMomKinetic then
    (((1 / 2 : K) • s.proposedMomentum) ᵥ* s.inverseMassMatrix) ⬝ᵥ s.proposedMomentum
  else
    (((1 / 2 : K) • s.proposedMomentum) ᵥ* s.inverseMassMatrixDiagonal) ⬝ᵥ s.proposedMomentum

/-- Member `sampler::chi`. -/
def chi (s : Sampler N K) : K := precomp_misfit s

/-- Member `sampler::energy`. -/
def energy (s : Sampler N K) : K := chi s + kineticEnergy s

/-- Local state of `sampler::leap_frog`: the sampler, the u-turn counter passed by
reference, the lines written to the trajectory file after its header, and the number
of loop bodies executed so far (`steps` is a ghost counter, it is not a variable of
the source). -/
structure LoopState (N : Nat) (K : Type) where
  sampler : Sampler N K
  uturns : Nat
  trajectory : List (Vec N K × K)
  steps : Nat

/-- Body of the `for` loop of `sampler::leap_frog` before the no-U-turn check
(Sampler.cpp lines 190-200): half step in momentum, optional trajectory line, full
step in position, half step in momentum with the gradient at the new position. -/
def leap_frog_body (writeTrajectory : Bool) (st : LoopState N K) : LoopState N K :=
  let s := st.sampler
  let misfitGrad := precomp_misfitGrad s
  let s1 := { s with proposedMomentum := s.proposedMomentum - ((1 / 2 : K) * s.dt) • misfitGrad }
  let trajectory :=
    if writeTrajectory then st.trajectory ++ [(s1.proposedModel, chi s1)] else st.trajectory
  let s2 := { s1 with proposedModel := s1.proposedModel + s1.dt •
      ((if s1.genMomKinetic then s1.inverseMassMatrix else s1.inverseMassMatrixDiagonal) *ᵥ
        s1.proposedMomentum) }
  let misfitGrad2 := precomp_misfitGrad s2
  let s3 := { s2 with proposedMomentum := s2.proposedMomentum - ((1 / 2 : K) * s2.dt) • misfitGrad2 }
  { sampler := s3, uturns := st.uturns, trajectory := trajectory, steps := st.steps + 1 }

/-- First angle of the no-U-turn criterion (Sampler.cpp line 203). -/
def angle1 (s : Sampler N K) : K := s.proposedMomentum ⬝ᵥ (s.currentModel - s.proposedModel)

/-- Second angle of the no-U-turn criterion (Sampler.cpp line 204). -/
def angle2 (s : Sampler N K) : K := s.currentMomentum ⬝ᵥ (s.proposedModel - s.currentModel)

/-- The test `angle1 > 0.0 && angle2 > 0.0` (Sampler.cpp line 206). -/
def uturn (s : Sampler N K) : Bool := decide (angle1 s > 0) && decide (angle2 s > 0)

/-- The `for` loop of `sampler::leap_frog` with `k` iterations left: after each body the
no-U-turn criterion is checked; when it holds the counter is incremented and the loop is
left. -/
def leap_frog_loop (writeTrajectory : Bool) : Nat → LoopState N K → LoopState N K
  | 0, st => st
  | k + 1, st =>
    let st1 := leap_frog_body writeTrajectory st
    if uturn st1.sampler then { st1 with uturns := st1.uturns + 1 }
    else leap_frog_loop writeTrajectory k st1

/-- State at the head of the loop of `sampler::leap_frog` (Sampler.cpp lines 175-187):
the proposal starts at the current model, the current momentum keeps the starting
momentum, the trajectory file is opened empty. -/
def leap_frog_entry (s : Sampler N K) (uturns : Nat) : LoopState N K :=
  let s1 := { s with proposedModel := s.currentModel }
  let s2 := { s1 with currentMomentum := s1.proposedMomentum }
  { sampler := s2, uturns := uturns, trajectory := [], steps := 0 }

/-- Member `sampler::leap_frog(uturns, writeTrajectory)`. -/
def leap_frog (s : Sampler N K) (uturns : Nat) (writeTrajectory : Bool) : LoopState N K :=
  leap_frog_loop writeTrajectory s.nt (leap_frog_entry s uturns)

/-- Local variables of `sampler::sample` together with the sampler and the two output
files: `samplesfile` holds the sample lines written after the header, `trajectoryfile`
the lines of the trajectory file as last rewritten (`none` while it was never opened).
`leapfrogCalls` is a ghost counter of the calls of `leap_frog`; it is not a variable of
the source. -/
structure SampleState (N : Nat) (K : Type) where
  sampler : Sampler N K
  x : K
  accepted : Nat
  uturns : Nat
  samplesfile : List (Vec N K × K)
  trajectoryfile : Option (List (Vec N K × K))
  leapfrogCalls : Nat

/-- A call `leap_frog(uturns, writeTrajectory)` made from `sampler::sample`. -/
def call_leap_frog (st : SampleState N K) (writeTrajectory : Bool) : SampleState N K :=
  let r := leap_frog st.sampler st.uturns writeTrajectory
  { st with
    sampler := r.sampler
    uturns := r.uturns
    trajectoryfile := if writeTrajectory then some r.trajectory else st.trajectoryfile
    leapfrogCalls := st.leapfrogCalls + 1 }

/-- Proposal part of iteration `it` of `sampler::sample` (Sampler.cpp lines 136-143). -/
def propose (lib : Lib N K) (it : Nat) (st : SampleState N K) (d : Draw N K) : SampleState N K :=
  if st.sampler.hmc then
    let st1 := { st with sampler := propose_hamilton lib st.sampler d }
    if !st1.sampler.testBefore then
      call_leap_frog st1 (decide (it = st1.sampler.proposals - 1))
    else st1
  else
    { st with sampler := propose_metropolis st.sampler d }

/-- The value `x_new` of `sampler::sample` (Sampler.cpp line 145). -/
def x_new (st : SampleState N K) : K :=
  if st.sampler.hmc then energy st.sampler else chi st.sampler

/-- The acceptance test of `sampler::sample` (Sampler.cpp lines 147-152):
`(x_new < x) || (exp(x - x_new) > randf(0.0, 1.0))`. -/
def acceptTest (exp : K → K) (x xnew u : K) : Bool :=
  decide (xnew < x) || decide (exp (x - xnew) > u)

/-- Body of the accept branch of `sampler::sample` (Sampler.cpp lines 153-159). -/
def accept (it : Nat) (st : SampleState N K) (xnew : K) : SampleState N K :=
  let st1 :=
    if st.sampler.testBefore then
      call_leap_frog st (decide (it = st.sampler.proposals - 1))
    else st
  { st1 with
    accepted := st1.accepted + 1
    x := xnew
    sampler := { st1.sampler with currentModel := st1.sampler.proposedModel }
    samplesfile := st1.samplesfile ++ [(st1.sampler.proposedModel, xnew)] }

/-- One iteration of the loop of `sampler::sample` (Sampler.cpp lines 128-161), the
progress display left out. -/
def sample_iteration (lib : Lib N K) (it : Nat) (st : SampleState N K) (d : Draw N K) :
    SampleState N K :=
  let st1 := propose lib it st d
  let xnew := x_new st1
  if acceptTest lib.exp st1.x xnew d.u then accept it st1 xnew else st1

/-- State of `sampler::sample` before the loop (Sampler.cpp lines 113-122): the initial
energy, `accepted = 1`, `uturns = 0` and the first sample line. -/
def sample_init (s : Sampler N K) : SampleState N K :=
  let x := if s.hmc then energy s else chi s
  { sampler := s, x := x, accepted := 1, uturns := 0,
    samplesfile := [(s.proposedModel, x)], trajectoryfile := none, leapfrogCalls := 0 }

/-- The loop of `sampler::sample` over the iterations `its`; `draws it` holds the random
values of iteration `it`. -/
def sample_loop (lib : Lib N K) (draws : Nat → Draw N K) (its : List Nat)
    (st : SampleState N K) : SampleState N K :=
  its.foldl (fun st it => sample_iteration lib it st (draws it)) st

/-- Contents of the samples file: header `N P`, the sample lines, the footer. -/
structure SamplesFile (N : Nat) (K : Type) where
  header : Nat × Nat
  lines : List (Vec N K × K)
  footer : Nat

/-- Member `sampler::sample`: the state after the loop `for (it = 1; it < _proposals; it++)`
and the samples file it wrote. -/
def sample (lib : Lib N K) (s : Sampler N K) (draws : Nat → Draw N K) :
    SampleState N K × SamplesFile N K :=
  let st := sample_loop lib draws (List.range' 1 (s.proposals - 1)) (sample_init s)
  (st, { header := (N, s.proposals), lines := st.samplesfile, footer := st.accepted })

/-- One step of the integrator as the design describes it (half-kick, full-drift,
half-kick with the gradient `A m - b` re-evaluated at the new position), acting on a
phase-space point `(m, p)`; `W` is the inverse mass matrix.  It is compared with
`leap_frog_body`, which is translated from the code. -/
def lfStep (dt : K) (A : Matrix (Fin N) (Fin N) K) (b : Vec N K) (W : Matrix (Fin N) (Fin N) K)
    (z : Vec N K × Vec N K) : Vec N K × Vec N K :=
  let p1 := z.2 - ((1 / 2 : K) * dt) • (A *ᵥ z.1 - b)
  let m1 := z.1 + dt • (W *ᵥ p1)
  let p2 := p1 - ((1 / 2 : K) * dt) • (A *ᵥ m1 - b)
  (m1, p2)

/-- The phase-space point `(proposed model, proposed momentum)` held by a sampler. -/
def phase (s : Sampler N K) : Vec N K × Vec N K := (s.proposedModel, s.proposedMomentum)

/-- The step of the design with the parameters held by the sampler `s`. -/
def samplerStep (s : Sampler N K) : Vec N K × Vec N K → Vec N K × Vec N K :=
  lfStep s.dt s.A s.bT (kineticMatrix s)

/-- The no-U-turn condition of the design at the phase-space point `z`, for a trajectory
started at `(m_start, p_start)`: both angles are positive. -/
def uturnAt (m_start p_start : Vec N K) (z : Vec N K × Vec N K) : Prop :=
  0 < z.2 ⬝ᵥ (m_start - z.1) ∧ 0 < p_start ⬝ᵥ (z.1 - m_start)

/-- The no-U-turn condition after `j` steps of the trajectory that `leap_frog` starts
from the sampler `s`, that is from `(current model, proposed momentum)`. -/
def uturnAfter (s : Sampler N K) (j : Nat) : Prop :=
  uturnAt s.currentModel s.proposedMomentum
    ((samplerStep s)^[j] (s.currentModel, s.proposedMomentum))

/-- Momentum flip `(m, p) ↦ (m, -p)` on phase space. -/
def flip (z : Vec N K × Vec N K) : Vec N K × Vec N K := (z.1, -z.2)

/-- The sampler restarted at its end point with the momentum flipped: the current model
becomes the proposed model and the proposed momentum changes sign, so that `leap_frog`
integrates from `(m_end, -p_end)`. -/
def reversed (s : Sampler N K) : Sampler N K :=
  { s with currentModel := s.proposedModel, proposedMomentum := -s.proposedMomentum }

/-- A phase-space point as one vector of dimension 2N: the model components first, the
momentum components after. -/
def toVec (z : Vec N K × Vec N K) : Fin N ⊕ Fin N → K := Sum.elim z.1 z.2

/-- The phase-space point held by a vector of dimension 2N. -/
def ofVec (x : Fin N ⊕ Fin N → K) : Vec N K × Vec N K := (x ∘ Sum.inl, x ∘ Sum.inr)

/-- Linear part of a half step in momentum, `p ← p - ½ dt (A m - b)`. -/
def kickMatrix (dt : K) (A : Matrix (Fin N) (Fin N) K) :
    Matrix (Fin N ⊕ Fin N) (Fin N ⊕ Fin N) K :=
  Matrix.fromBlocks 1 0 (-(((1 / 2 : K) * dt) • A)) 1

/-- Linear part of a full step in position, `m ← m + dt W p`. -/
def driftMatrix (dt : K) (W : Matrix (Fin N) (Fin N) K) :
    Matrix (Fin N ⊕ Fin N) (Fin N ⊕ Fin N) K :=
  Matrix.fromBlocks 1 (dt • W) 0 1

/-- Linear part of one leap-frog step: half-kick, drift, half-kick. -/
def lfLinear (dt : K) (A W : Matrix (Fin N) (Fin N) K) :
    Matrix (Fin N ⊕ Fin N) (Fin N ⊕ Fin N) K :=
  kickMatrix dt A * driftMatrix dt W * kickMatrix dt A

/-- Constant part of one leap-frog step: the image of the origin. -/
def lfShift (dt : K) (A : Matrix (Fin N) (Fin N) K) (b : Vec N K) (W : Matrix (Fin N) (Fin N) K) :
    Fin N ⊕ Fin N → K :=
  toVec (lfStep dt A b W (0, 0))

/-- The Hamiltonian `energy()` of the sampler `s` as a function of the phase-space point:
`chi() + kineticEnergy()` with the proposed model and momentum set to `z`. -/
def hamiltonian (s : Sampler N K) (z : Vec N K × Vec N K) : K :=
  energy { s with proposedModel := z.1, proposedMomentum := z.2 }

/-- The quadratic form `gᵀ W g` of the misfit gradient `g = A m - bT` at the model of `z`,
with `W` the inverse mass matrix of the kinetic energy. -/
def gradForm (s : Sampler N K) (z : Vec N K × Vec N K) : K :=
  precomp_misfitGradAt s z.1 ⬝ᵥ (kineticMatrix s *ᵥ precomp_misfitGradAt s z.1)

/-- Invariant of the evaluate-before-propagate path of `sample`: the sampler runs HMC with
`testBefore` set and the proposed model equals the current model. -/
def testBeforeInv (st : SampleState N K) : Prop :=
  st.sampler.proposedModel = st.sampler.currentModel ∧ st.sampler.hmc = true ∧
    st.sampler.testBefore = true

/-- Chain-record invariant of `sample`: the last line of the samples file holds the current
model and the stored energy. -/
def recordInv (st : SampleState N K) : Prop :=
  st.samplesfile.getLast? = some (st.sampler.currentModel, st.x)

/-- Number of iterations of the loop of `sample` over `its` in which the accept branch is
taken (a count kept beside the code, which has no such variable). -/
def acceptedIterations (lib : Lib N K) (draws : Nat → Draw N K) :
    List Nat → SampleState N K → Nat
  | [], _ => 0
  | it :: its, st =>
    (if acceptTest lib.exp (propose lib it st (draws it)).x
        (x_new (propose lib it st (draws it))) (draws it).u then 1 else 0) +
      acceptedIterations lib draws its (sample_iteration lib it st (draws it))

end Defs

/-! ## Command-line options (`InversionSettings::parse_input`) -/

/-- Members of `InversionSettings` (linearSampler.hpp lines 22-45) that hold the options. -/
@[ext]
structure InversionSettings (K : Type) where
  outputSamplesFile : String
  outputTrajectoryFile : String
  A_file : String
  B_file : String
  C_file : String
  timeStep : K
  temperature : K
  proposals : Nat
  trajectorySteps : Nat
  massMatrixType : Nat
  algorithmNew : Bool
  genMomPropose : Bool
  genMomKinetic : Bool
  testBefore : Bool
  ergodic : Bool
  hamiltonianMonteCarlo : Bool
  adaptTimestep : Bool

/-- Extraction from a `std::stringstream` followed by the end-of-stream test, as used by the
three `parse_*` members: `some x` when `ss >> x` succeeds and the whole string was read.
The stream library is not part of the sources; it is a parameter. -/
structure StreamReaders (K : Type) where
  read_long_unsigned : String → Option Nat
  read_double : String → Option K
  read_boolean : String → Option Bool

/-- Outcome of `parse_input`: the program was ended with `exit(EXIT_SUCCESS)` after the help
text, or the call returned with the settings and the lines written to standard error. -/
inductive ParseResult (K : Type) where
  | helpExit : ParseResult K
  | returned (settings : InversionSettings K) (cerr : List String) : ParseResult K

section ParseDefs

variable {K : Type}

/-- Default member initialisers of `InversionSettings`. -/
def defaultSettings (K : Type) [LinearOrderedField K] : InversionSettings K where
  outputSamplesFile := "OUTPUT/samples.txt"
  outputTrajectoryFile := "OUTPUT/trajectory.txt"
  A_file := ""
  B_file := ""
  C_file := ""
  timeStep := 1 / 10
  temperature := 1
  proposals := 1000
  trajectorySteps := 10
  massMatrixType := 0
  algorithmNew := true
  genMomPropose := true
  genMomKinetic := true
  testBefore := true
  ergodic := true
  hamiltonianMonteCarlo := true
  adaptTimestep := true

/-- The line written to standard error for a value that does not parse. -/
def invalidInput (flag value : String) : String :=
  "Invalid input " ++ value ++ " for option " ++ flag

/-- Member `parse_long_unsigned`: the new value of `to_set` and the lines written to
standard error. -/
def parse_long_unsigned (rd : StreamReaders K) (flag value : String) (to_set : Nat) :
    Nat × List String :=
  match rd.read_long_unsigned value with
  | none => (to_set, [invalidInput flag value])
  | some x => (x, [])

/-- Member `parse_double`. -/
def parse_double (rd : StreamReaders K) (flag value : String) (to_set : K) : K × List String :=
  match rd.read_double value with
  | none => (to_set, [invalidInput flag value])
  | some x => (x, [])

/-- Member `parse_boolean`. -/
def parse_boolean (rd : StreamReaders K) (flag value : String) (to_set : Bool) :
    Bool × List String :=
  match rd.read_boolean value with
  | none => (to_set, [invalidInput flag value])
  | some x => (x, [])

/-- The `if` / `else if` chain of `parse_input` (linearSampler.hpp lines 62-110) for the
option `flag` followed by `value`: the update it makes and the lines it writes to standard
error, or `none` when no branch matches. -/
def applyOption (rd : StreamReaders K) (flag value : String) :
    Option (InversionSettings K → InversionSettings K × List String) :=
  if flag = "-ia" ∨ flag = "--inputA" then
    some fun s => ({ s with A_file := value }, [])
  else if flag = "-ib" ∨ flag = "--inputB" then
    some fun s => ({ s with B_file := value }, [])
  else if flag = "-ic" ∨ flag = "--inputC" then
    some fun s => ({ s with C_file := value }, [])
  else if flag = "-mtype" ∨ flag = "--massmatrixtype" then
    some fun s => ({ s with massMatrixType := (parse_long_unsigned rd flag value s.massMatrixType).1 },
      (parse_long_unsigned rd flag value s.massMatrixType).2)
  else if flag = "-os" ∨ flag = "--outputsamples" then
    some fun s => ({ s with outputSamplesFile := value }, [])
  else if flag = "-ot" ∨ flag = "--outputtrajectory" then
    some fun s => ({ s with outputTrajectoryFile := value }, [])
  else if flag = "-t" ∨ flag = "--temperature" then
    some fun s => ({ s with temperature := (parse_double rd flag value s.temperature).1 },
      (parse_double rd flag value s.temperature).2)
  else if flag = "-nt" ∨ flag = "--trajectorysteps" then
    some fun s => ({ s with trajectorySteps := (parse_long_unsigned rd flag value s.trajectorySteps).1 },
      (parse_long_unsigned rd flag value s.trajectorySteps).2)
  else if flag = "-dt" ∨ flag = "--timestep" then
    some fun s => ({ s with timeStep := (parse_double rd flag value s.timeStep).1 },
      (parse_double rd flag value s.timeStep).2)
  else if flag = "-at" ∨ flag = "--adapttimestep" then
    some fun s => ({ s with adaptTimestep := (parse_boolean rd flag value s.adaptTimestep).1 },
      (parse_boolean rd flag value s.adaptTimestep).2)
  else if flag = "-ns" ∨ flag = "--numberofsamples" then
    some fun s => ({ s with proposals := (parse_long_unsigned rd flag value s.proposals).1 },
      (parse_long_unsigned rd flag value s.proposals).2)
  else if flag = "-e" ∨ flag = "--ergodic" then
    some fun s => ({ s with ergodic := (parse_boolean rd flag value s.ergodic).1 },
      (parse_boolean rd flag value s.ergodic).2)
  else if flag = "-gmp" ∨ flag = "--correlatedmomenta" then
    some fun s => ({ s with genMomPropose := (parse_boolean rd flag value s.genMomPropose).1 },
      (parse_boolean rd flag value s.genMomPropose).2)
  else if flag = "-gmc" ∨ flag = "--generalkinetic" then
    some fun s => ({ s with genMomKinetic := (parse_boolean rd flag value s.genMomKinetic).1 },
      (parse_boolean rd flag value s.genMomKinetic).2)
  else if flag = "-Hb" ∨ flag = "--hamiltonianbefore" then
    some fun s => ({ s with testBefore := (parse_boolean rd flag value s.testBefore).1 },
      (parse_boolean rd flag value s.testBefore).2)
  else if flag = "-an" ∨ flag = "--algorithmnew" then
    some fun s => ({ s with algorithmNew := (parse_boolean rd flag value s.algorithmNew).1 },
      (parse_boolean rd flag value s.algorithmNew).2)
  else none

/-- The `for` loop of `parse_input` over the arguments that are left (linearSampler.hpp lines
56-112).  `skip` tells that the first argument left was read as the value of the option
before it, which is what the extra `i++` of a matching branch does. -/
def parse_loop (rd : StreamReaders K) :
    Bool → List String → InversionSettings K → List String → ParseResult K
  | _, [], s, cerr => .returned s cerr
  | true, _ :: rest, s, cerr => parse_loop rd false rest s cerr
  | false, a :: rest, s, cerr =>
    if a = "-h" ∨ a = "--help" then .helpExit
    else
      match rest with
      | [] => .returned s cerr
      | v :: _ =>
        match applyOption rd a v with
        | some u => parse_loop rd true rest (u s).1 (cerr ++ (u s).2)
        | none => parse_loop rd false rest s cerr

/-- Member `InversionSettings::parse_input(argc, argv)` with `argc` the length of `argv`. -/
def parse_input (rd : StreamReaders K) (argv : List String) (s : InversionSettings K)
    (cerr : List String) : ParseResult K :=
  if argv.length < 2 then .helpExit else parse_loop rd false argv.tail s cerr

/-- The update `F` of the settings either keeps the member `p` or sets it to a value that
does not depend on the settings it is applied to. -/
def FieldConst {α : Type} (p : InversionSettings K → α)
    (F : InversionSettings K → InversionSettings K) : Prop :=
  (∀ s, p (F s) = p s) ∨ ∃ c, ∀ s, p (F s) = c

/-- The update `F` acts on every member of the settings by keeping it or by setting it to a
value that does not depend on the settings. -/
def Overrides (F : InversionSettings K → InversionSettings K) : Prop :=
  FieldConst (fun s => s.outputSamplesFile) F ∧ FieldConst (fun s => s.outputTrajectoryFile) F ∧
  FieldConst (fun s => s.A_file) F ∧ FieldConst (fun s => s.B_file) F ∧
  FieldConst (fun s => s.C_file) F ∧ FieldConst (fun s => s.timeStep) F ∧
  FieldConst (fun s => s.temperature) F ∧ FieldConst (fun s => s.proposals) F ∧
  FieldConst (fun s => s.trajectorySteps) F ∧ FieldConst (fun s => s.massMatrixType) F ∧
  FieldConst (fun s => s.algorithmNew) F ∧ FieldConst (fun s => s.genMomPropose) F ∧
  FieldConst (fun s => s.genMomKinetic) F ∧ FieldConst (fun s => s.testBefore) F ∧
  FieldConst (fun s => s.ergodic) F ∧ FieldConst (fun s => s.hamiltonianMonteCarlo) F ∧
  FieldConst (fun s => s.adaptTimestep) F

/-- What every branch of the option chain does: it overrides members of the settings and
writes lines to standard error that do not depend on the settings. -/
def IsUpdate (u : InversionSettings K → InversionSettings K × List String) : Prop :=
  Overrides (fun s => (u s).1) ∧ ∃ m, ∀ s, (u s).2 = m

/-- An argument is one of the two help options. -/
def isHelp (a : String) : Prop := a = "-h" ∨ a = "--help"

end ParseDefs

/-! ## Small instances on which the definitions are evaluated -/

section Examples

/-- Stand-in for the numeric library on `ℚ`, used to evaluate the definitions. -/
def exLib : Lib 2 ℚ where
  exp := fun x => 1 + x
  sqrt := fun x => x
  Normalize := fun v => v
  CholeskyDecompose := fun _ => 1
  InvertLowerTriangular := fun _ => 1

/-- Prior with means (0, 1) and covariance ½ I. -/
def exPrior : Prior 2 ℚ where
  means := ![0, 1]
  covariance := !![1 / 2, 0; 0, 1 / 2]
  inv_cov_m := !![2, 0; 0, 2]

/-- One datum with unit inverse covariance. -/
def exData : Data 1 ℚ where
  observedData := ![1]
  inv_cov_d := !![1]

/-- Forward operator summing the two parameters. -/
def exModel : ForwardModel 1 2 ℚ where
  g := !![1, 1]

/-- Settings with two trajectory steps of size ½. -/
def exSettings : Settings ℚ where
  trajectorySteps := 2
  timeStep := 1 / 2
  temperature := 1
  gravity := 1
  proposals := 3
  genMomKinetic := true
  genMomPropose := true
  norMom := false
  testBefore := true
  hamiltonianMonteCarlo := true

/-- Starting draw. -/
def exDraw : Draw 2 ℚ where
  momentum := ![1, 0]
  model := ![0, 0]
  u := 1 / 2

/-- The sampler built from the instances above. -/
def exSampler : Sampler 2 ℚ := sampler exLib exPrior exData exModel exSettings exDraw

/-- The same sampler with five trajectory steps. -/
def exSampler5 : Sampler 2 ℚ := { exSampler with nt := 5 }

/-- The example sampler restarted, momentum flipped, at the end of its trajectory. -/
def exSamplerBack : Sampler 2 ℚ := reversed (leap_frog exSampler 0 false).sampler

/-- State of `sample` for the example sampler with the stored energy set to 100. -/
def exState : SampleState 2 ℚ := { sample_init exSampler with x := 100 }

/-- Two uncoupled unit oscillators over any ordered field: `A = W = 1`, `bT = 0`, three
trajectory steps, started at the origin with momentum (1, 1). -/
def exOscillator (K : Type) [LinearOrderedField K] : Sampler 2 K where
  nt := 3
  dt := 1
  gravity := 1
  proposals := 2
  genMomKinetic := true
  genMomPropose := true
  norMom := false
  testBefore := false
  hmc := true
  massMatrix := 1
  inverseMassMatrixDiagonal := 1
  CholeskyLowerMassMatrix := 1
  inverseMassMatrix := 1
  proposedMomentum := fun _ => 1
  proposedModel := 0
  currentModel := 0
  currentMomentum := fun _ => 1
  A := 1
  bT := 0
  c := 0

/-- The example sampler run as Metropolis-Hastings, `testBefore` still set. -/
def exSamplerMH : Sampler 2 ℚ := { exSampler with hmc := false }

/-- Draw whose prior model is (0, 1). -/
def exDrawMH : Draw 2 ℚ where
  momentum := ![1, 0]
  model := ![0, 1]
  u := 1 / 2

/-- Draw with the momentum at rest. -/
def exDrawZero : Draw 2 ℚ where
  momentum := ![0, 0]
  model := ![0, 0]
  u := 1 / 2

/-- The example sampler after the momentum at rest has been drawn. -/
def exSamplerRest : Sampler 2 ℚ := propose_hamilton exLib exSampler exDrawZero

/-- The example chain after its first iteration, run with the momentum at rest. -/
def exChain1 : SampleState 2 ℚ := sample_iteration exLib 1 (sample_init exSampler) exDrawZero

/-- The example sampler with a single proposal: the loop of `sample` has no iteration. -/
def exSamplerP1 : Sampler 2 ℚ := { exSampler with proposals := 1 }

/-- Stand-in library whose Cholesky factor is 2 I and whose triangular inverse is ½ I. -/
def exLibChol : Lib 2 ℚ where
  exp := fun x => 1 + x
  sqrt := fun x => x
  Normalize := fun v => v
  CholeskyDecompose := fun _ => !![2, 0; 0, 2]
  InvertLowerTriangular := fun _ => !![1 / 2, 0; 0, 1 / 2]

/-- Forward operator that is zero. -/
def exModelZero : ForwardModel 1 2 ℚ where
  g := !![0, 0]

/-- The example settings with gravity 2. -/
def exSettingsG2 : Settings ℚ := { exSettings with gravity := 2 }

/-- The example sampler with four trajectory steps. -/
def exSampler4 : Sampler 2 ℚ := { exSampler with nt := 4 }

/-- The four-step example sampler restarted, momentum flipped, where its trajectory stopped. -/
def exSampler4Back : Sampler 2 ℚ := reversed (leap_frog exSampler4 0 false).sampler

/-- Stand-in stream readers on `ℚ` that know a few tokens. -/
def exReaders : StreamReaders ℚ where
  read_long_unsigned := fun v => if v = "0" then some 0 else if v = "20" then some 20 else none
  read_double := fun v => if v = "1" then some 1 else if v = "2" then some 2 else none
  read_boolean := fun v => if v = "0" then some false else if v = "1" then some true else none

end Examples

/-! ## Linear-algebra lemmas -/

section Algebra

variable {M N : Nat} {K : Type} [LinearOrderedField K]

/-- A symmetric matrix can be moved to the other side of a dot product. -/
theorem dot_mulVec_symm (S : Matrix (Fin N) (Fin N) K) (hS : S.IsSymm) (u v : Vec N K) :
    u ⬝ᵥ (S *ᵥ v) = v ⬝ᵥ (S *ᵥ u) := by
  rw [Matrix.dotProduct_mulVec, ← Matrix.mulVec_transpose, hS.eq, Matrix.dotProduct_comm]

/-- Row-vector times matrix times vector, written with the matrix acting on the right. -/
theorem vecMul_dot (S : Matrix (Fin M) (Fin N) K) (u : Vec M K) (v : Vec N K) :
    (u ᵥ* S) ⬝ᵥ v = u ⬝ᵥ (S *ᵥ v) :=
  (Matrix.dotProduct_mulVec u S v).symm

/-- The data part of the quadratic form, pulled back through the forward operator. -/
theorem dot_gram (G : Matrix (Fin M) (Fin N) K) (S : Matrix (Fin M) (Fin M) K)
    (u : Vec N K) (w : Vec M K) :
    u ⬝ᵥ ((Gᵀ * S) *ᵥ w) = (G *ᵥ u) ⬝ᵥ (S *ᵥ w) := by
  rw [← Matrix.mulVec_mulVec, Matrix.dotProduct_mulVec, Matrix.vecMul_transpose]

/-- From a factor `L` with `L Lᵀ = M` and a left inverse `Li` of `L`, the matrix `Liᵀ Li` is
symmetric and a two-sided inverse of `M`. -/
theorem cholesky_inverse (L Li Mm : Matrix (Fin N) (Fin N) K) (hL : L * Lᵀ = Mm)
    (hI : Li * L = 1) :
    (Liᵀ * Li).IsSymm ∧ Liᵀ * Li * Mm = 1 ∧ Mm * (Liᵀ * Li) = 1 := by
  have hI2 : L * Li = 1 := (Matrix.mul_eq_one_comm).mp hI
  have hleft : Liᵀ * Li * Mm = 1 := by
    rw [← hL, Matrix.mul_assoc, ← Matrix.mul_assoc Li, hI, Matrix.one_mul, ← Matrix.transpose_mul,
      hI2, Matrix.transpose_one]
  refine ⟨?_, hleft, (Matrix.mul_eq_one_comm).mp hleft⟩
  show (Liᵀ * Li)ᵀ = Liᵀ * Li
  rw [Matrix.transpose_mul, Matrix.transpose_transpose]

end Algebra

/-! ## The loop of `leap_frog` -/

section Loop

variable {N : Nat} {K : Type} [LinearOrderedField K]

/-- The loop body acts on `(proposed model, proposed momentum)` as the step of the design
and leaves every other member of the sampler unchanged. -/
theorem leap_frog_body_sampler (wt : Bool) (st : LoopState N K) :
    (leap_frog_body wt st).sampler =
      { st.sampler with
        proposedModel := (samplerStep st.sampler (phase st.sampler)).1
        proposedMomentum := (samplerStep st.sampler (phase st.sampler)).2 } := by
  cases h : st.sampler.genMomKinetic <;>
    simp [leap_frog_body, samplerStep, lfStep, phase, kineticMatrix, precomp_misfitGrad, h]

/-- Each loop body is counted once. -/
theorem leap_frog_body_steps (wt : Bool) (st : LoopState N K) :
    (leap_frog_body wt st).steps = st.steps + 1 := rfl

/-- The loop body itself does not touch the u-turn counter. -/
theorem leap_frog_body_uturns (wt : Bool) (st : LoopState N K) :
    (leap_frog_body wt st).uturns = st.uturns := rfl

/-- The step of the design only reads members that the loop body does not change. -/
theorem samplerStep_congr (s t : Sampler N K) (h1 : t.dt = s.dt) (h2 : t.A = s.A)
    (h3 : t.bT = s.bT) (h4 : kineticMatrix t = kineticMatrix s) :
    samplerStep t = samplerStep s := by
  unfold samplerStep
  rw [h1, h2, h3, h4]

/-- After `j` loop bodies the sampler holds the `j`-fold iterate of the step of the design;
`j` bodies were counted and the u-turn counter is untouched. -/
theorem iterate_body (wt : Bool) (st : LoopState N K) (j : Nat) :
    ((leap_frog_body wt)^[j] st).sampler =
      { st.sampler with
        proposedModel := ((samplerStep st.sampler)^[j] (phase st.sampler)).1
        proposedMomentum := ((samplerStep st.sampler)^[j] (phase st.sampler)).2 } ∧
    ((leap_frog_body wt)^[j] st).steps = st.steps + j ∧
    ((leap_frog_body wt)^[j] st).uturns = st.uturns := by
  induction j with
  | zero => exact ⟨rfl, rfl, rfl⟩
  | succ j ih =>
    obtain ⟨h1, h2, h3⟩ := ih
    rw [Function.iterate_succ_apply', Function.iterate_succ_apply']
    refine ⟨?_, ?_, ?_⟩
    · rw [leap_frog_body_sampler, h1]
      have hc : samplerStep
          { st.sampler with
            proposedModel := ((samplerStep st.sampler)^[j] (phase st.sampler)).1
            proposedMomentum := ((samplerStep st.sampler)^[j] (phase st.sampler)).2 } =
          samplerStep st.sampler :=
        samplerStep_congr _ _ rfl rfl rfl rfl
      rw [hc]
      rfl
    · rw [leap_frog_body_steps, h2]; rfl
    · rw [leap_frog_body_uturns, h3]

/-- The test of the code after `j` bodies is the no-U-turn condition of the design at the
`j`-th iterate. -/
theorem uturn_iterate (wt : Bool) (st : LoopState N K) (j : Nat) :
    uturn ((leap_frog_body wt)^[j] st).sampler = true ↔
      uturnAt st.sampler.currentModel st.sampler.currentMomentum
        ((samplerStep st.sampler)^[j] (phase st.sampler)) := by
  rw [(iterate_body wt st j).1]
  simp [uturn, uturnAt, angle1, angle2]

/-- When the test never holds the loop runs all its bodies. -/
theorem loop_no_uturn (wt : Bool) : ∀ (k : Nat) (st : LoopState N K),
    (∀ j, 1 ≤ j → j ≤ k → uturn ((leap_frog_body wt)^[j] st).sampler = false) →
    leap_frog_loop wt k st = (leap_frog_body wt)^[k] st := by
  intro k
  induction k with
  | zero => intro st _; rfl
  | succ k ih =>
    intro st h
    have h1 : uturn (leap_frog_body wt st).sampler = false := h 1 le_rfl (by omega)
    rw [leap_frog_loop]
    simp only [h1, Bool.false_eq_true, if_false]
    rw [ih (leap_frog_body wt st), Function.iterate_succ_apply]
    intro j hj1 hjk
    have := h (j + 1) (by omega) (by omega)
    rwa [Function.iterate_succ_apply] at this

/-- The loop is left at the first body after which the test holds, the counter raised
by one. -/
theorem loop_first_uturn (wt : Bool) : ∀ (k : Nat) (st : LoopState N K) (j : Nat),
    1 ≤ j → j ≤ k → uturn ((leap_frog_body wt)^[j] st).sampler = true →
    (∀ i, 1 ≤ i → i < j → uturn ((leap_frog_body wt)^[i] st).sampler = false) →
    leap_frog_loop wt k st =
      { (leap_frog_body wt)^[j] st with uturns := ((leap_frog_body wt)^[j] st).uturns + 1 } := by
  intro k
  induction k with
  | zero => intro st j h1 h2; omega
  | succ k ih =>
    intro st j hj1 hjk hj hlt
    rw [leap_frog_loop]
    by_cases h1 : uturn (leap_frog_body wt st).sampler = true
    · have hj' : j = 1 := by
        by_contra hne
        have := hlt 1 le_rfl (by omega)
        rw [Function.iterate_one, h1] at this
        exact Bool.noConfusion this
      subst hj'
      simp only [h1, if_true, Function.iterate_one]
    · have hj' : 2 ≤ j := by
        by_contra hne
        have h1j : j = 1 := by omega
        subst h1j
        rw [Function.iterate_one] at hj
        exact h1 hj
      simp only [h1, Bool.false_eq_true, if_false]
      obtain ⟨i, rfl⟩ : ∃ i, j = i + 1 := ⟨j - 1, by omega⟩
      rw [Function.iterate_succ_apply] at hj ⊢
      refine ih (leap_frog_body wt st) i (by omega) (by omega) hj ?_
      intro l hl1 hl2
      have := hlt (l + 1) (by omega) (by omega)
      rwa [Function.iterate_succ_apply] at this

/-- The loop raises the u-turn counter by at most one and runs at most `k` bodies. -/
theorem loop_bounds (wt : Bool) : ∀ (k : Nat) (st : LoopState N K),
    st.uturns ≤ (leap_frog_loop wt k st).uturns ∧
    (leap_frog_loop wt k st).uturns ≤ st.uturns + 1 ∧
    (leap_frog_loop wt k st).steps ≤ st.steps + k := by
  intro k
  induction k with
  | zero => intro st; exact ⟨le_rfl, Nat.le_succ _, le_rfl⟩
  | succ k ih =>
    intro st
    rw [leap_frog_loop]
    by_cases h1 : uturn (leap_frog_body wt st).sampler = true
    · simp only [h1, if_true, leap_frog_body_uturns, leap_frog_body_steps]
      omega
    · simp only [h1, Bool.false_eq_true, if_false]
      obtain ⟨a, b, c⟩ := ih (leap_frog_body wt st)
      rw [leap_frog_body_uturns] at a b
      rw [leap_frog_body_steps] at c
      omega

/-- The result of the loop is always some iterate of the body, at most the `k`-th. -/
theorem loop_exists_iterate (wt : Bool) : ∀ (k : Nat) (st : LoopState N K),
    ∃ j, j ≤ k ∧ (leap_frog_loop wt k st).sampler = ((leap_frog_body wt)^[j] st).sampler ∧
      (leap_frog_loop wt k st).steps = st.steps + j := by
  intro k
  induction k with
  | zero => intro st; exact ⟨0, le_rfl, rfl, rfl⟩
  | succ k ih =>
    intro st
    rw [leap_frog_loop]
    by_cases h1 : uturn (leap_frog_body wt st).sampler = true
    · simp only [h1, if_true]
      exact ⟨1, by omega, rfl, rfl⟩
    · simp only [h1, Bool.false_eq_true, if_false]
      obtain ⟨j, hj, e1, e2⟩ := ih (leap_frog_body wt st)
      refine ⟨j + 1, by omega, ?_, ?_⟩
      · rw [Function.iterate_succ_apply]; exact e1
      · rw [e2, leap_frog_body_steps]; omega

/-- Result of `leap_frog`: some `j ≤ nt` bodies were run, the sampler holds the `j`-th
iterate of the step from `(current model, proposed momentum)`, the current momentum holds
the starting momentum and nothing else changed. -/
theorem leap_frog_result (s : Sampler N K) (uturns : Nat) (wt : Bool) :
    ∃ j, j ≤ s.nt ∧ (leap_frog s uturns wt).steps = j ∧
      (leap_frog s uturns wt).sampler =
        { s with
          proposedModel := ((samplerStep s)^[j] (s.currentModel, s.proposedMomentum)).1
          proposedMomentum := ((samplerStep s)^[j] (s.currentModel, s.proposedMomentum)).2
          currentMomentum := s.proposedMomentum } := by
  obtain ⟨j, hj, e1, e2⟩ := loop_exists_iterate wt s.nt (leap_frog_entry s uturns)
  refine ⟨j, hj, ?_, ?_⟩
  · rw [leap_frog, e2]
    simp [leap_frog_entry]
  · rw [leap_frog, e1, (iterate_body wt (leap_frog_entry s uturns) j).1]
    rfl

/-- When the no-U-turn condition holds at none of the first `nt` steps, `leap_frog` runs
`nt` bodies. -/
theorem leap_frog_steps_of_no_uturn (s : Sampler N K) (uturns : Nat) (wt : Bool)
    (h : ∀ j, 1 ≤ j → j ≤ s.nt → ¬ uturnAfter s j) :
    (leap_frog s uturns wt).steps = s.nt := by
  have h2 : ∀ j, 1 ≤ j → j ≤ s.nt →
      uturn ((leap_frog_body wt)^[j] (leap_frog_entry s uturns)).sampler = false := by
    intro j hj1 hj2
    rw [← Bool.not_eq_true, uturn_iterate]
    exact h j hj1 hj2
  rw [leap_frog, loop_no_uturn wt s.nt _ h2, (iterate_body wt (leap_frog_entry s uturns) s.nt).2.1]
  simp [leap_frog_entry]

/-- One step, a momentum flip and one more step give back the starting point with the
momentum flipped. -/
theorem lfStep_flip (dt : K) (A : Matrix (Fin N) (Fin N) K) (b : Vec N K)
    (W : Matrix (Fin N) (Fin N) K) (z : Vec N K × Vec N K) :
    lfStep dt A b W (flip (lfStep dt A b W z)) = flip z := by
  obtain ⟨m, p⟩ := z
  have hm : m + dt • W *ᵥ (p - (1 / 2 * dt) • (A *ᵥ m - b)) +
      dt • W *ᵥ (-(p - (1 / 2 * dt) • (A *ᵥ m - b) -
        (1 / 2 * dt) • (A *ᵥ (m + dt • W *ᵥ (p - (1 / 2 * dt) • (A *ᵥ m - b))) - b)) -
        (1 / 2 * dt) • (A *ᵥ (m + dt • W *ᵥ (p - (1 / 2 * dt) • (A *ᵥ m - b))) - b)) = m := by
    have e : (-(p - (1 / 2 * dt) • (A *ᵥ m - b) -
        (1 / 2 * dt) • (A *ᵥ (m + dt • W *ᵥ (p - (1 / 2 * dt) • (A *ᵥ m - b))) - b)) -
        (1 / 2 * dt) • (A *ᵥ (m + dt • W *ᵥ (p - (1 / 2 * dt) • (A *ᵥ m - b))) - b)) =
        -(p - (1 / 2 * dt) • (A *ᵥ m - b)) := by abel
    rw [e, Matrix.mulVec_neg, smul_neg]
    abel
  simp only [lfStep, flip]
  rw [hm]
  refine Prod.ext rfl ?_
  simp only
  abel

/-- Reversibility of the iterated step. -/
theorem lfStep_iterate_flip (dt : K) (A : Matrix (Fin N) (Fin N) K) (b : Vec N K)
    (W : Matrix (Fin N) (Fin N) K) (n : Nat) (z : Vec N K × Vec N K) :
    (lfStep dt A b W)^[n] (flip ((lfStep dt A b W)^[n] z)) = flip z := by
  induction n generalizing z with
  | zero => rfl
  | succ n ih =>
    rw [Function.iterate_succ_apply, Function.iterate_succ_apply', lfStep_flip]
    exact ih z

/-- When the no-U-turn condition first holds after step `k ≤ nt`, `leap_frog` runs `k`
bodies and stops at the `k`-th iterate. -/
theorem leap_frog_stop_at (s : Sampler N K) (uturns : Nat) (wt : Bool) (k : Nat)
    (hk1 : 1 ≤ k) (hk2 : k ≤ s.nt) (hk : uturnAfter s k)
    (hlt : ∀ j, 1 ≤ j → j < k → ¬ uturnAfter s j) :
    (leap_frog s uturns wt).steps = k ∧
    (leap_frog s uturns wt).sampler =
      { s with
        proposedModel := ((samplerStep s)^[k] (s.currentModel, s.proposedMomentum)).1
        proposedMomentum := ((samplerStep s)^[k] (s.currentModel, s.proposedMomentum)).2
        currentMomentum := s.proposedMomentum } := by
  have hiff : ∀ j, uturn ((leap_frog_body wt)^[j] (leap_frog_entry s uturns)).sampler = true ↔
      uturnAfter s j := fun j => uturn_iterate wt (leap_frog_entry s uturns) j
  have h2 : ∀ i, 1 ≤ i → i < k →
      uturn ((leap_frog_body wt)^[i] (leap_frog_entry s uturns)).sampler = false := by
    intro i hi1 hi2
    rw [← Bool.not_eq_true, hiff]
    exact hlt i hi1 hi2
  have e := loop_first_uturn wt s.nt (leap_frog_entry s uturns) k hk1 hk2 ((hiff k).2 hk) h2
  obtain ⟨b1, b2, _⟩ := iterate_body wt (leap_frog_entry s uturns) k
  rw [leap_frog, e]
  refine ⟨?_, ?_⟩
  · show ((leap_frog_body wt)^[k] (leap_frog_entry s uturns)).steps = k
    rw [b2]; simp [leap_frog_entry]
  · show ((leap_frog_body wt)^[k] (leap_frog_entry s uturns)).sampler = _
    rw [b1]; rfl

end Loop

/-! ## The step as an affine map -/

section Volume

variable {N : Nat} {K : Type} [LinearOrderedField K]

/-- One leap-frog step is the affine map with linear part `lfLinear` and constant part
`lfShift`. -/
theorem lfStep_affine (dt : K) (A : Matrix (Fin N) (Fin N) K) (b : Vec N K)
    (W : Matrix (Fin N) (Fin N) K) (z : Vec N K × Vec N K) :
    toVec (lfStep dt A b W z) = lfLinear dt A W *ᵥ toVec z + lfShift dt A b W := by
  obtain ⟨m, p⟩ := z
  simp only [lfLinear, kickMatrix, driftMatrix, lfShift, toVec, lfStep, ← Matrix.mulVec_mulVec,
    Matrix.fromBlocks_mulVec, Sum.elim_comp_inl, Sum.elim_comp_inr, Matrix.one_mulVec,
    Matrix.zero_mulVec, add_zero, zero_add, Matrix.mulVec_zero]
  ext i
  rcases i with i | i
  · simp only [Sum.elim_inl, Pi.add_apply, Matrix.mulVec_add, Matrix.mulVec_sub,
      Matrix.mulVec_smul, Matrix.neg_mulVec, Matrix.smul_mulVec_assoc, Pi.sub_apply,
      Pi.smul_apply, Pi.neg_apply, smul_eq_mul, Matrix.mulVec_neg, Pi.zero_apply,
      Matrix.mulVec_zero, smul_zero, sub_zero, zero_sub, neg_zero, mul_zero, add_zero]
    ring
  · simp only [Sum.elim_inr, Pi.add_apply, Matrix.mulVec_add, Matrix.mulVec_sub,
      Matrix.mulVec_smul, Matrix.neg_mulVec, Matrix.smul_mulVec_assoc, Pi.sub_apply,
      Pi.smul_apply, Pi.neg_apply, smul_eq_mul, Matrix.mulVec_neg, Pi.zero_apply,
      Matrix.mulVec_zero, smul_zero, sub_zero, zero_sub, neg_zero, mul_zero, add_zero]
    ring

/-- The linear part of one step has determinant one: it is a product of three block
triangular matrices with unit diagonal blocks. -/
theorem lfLinear_det (dt : K) (A W : Matrix (Fin N) (Fin N) K) : (lfLinear dt A W).det = 1 := by
  simp [lfLinear, kickMatrix, driftMatrix, Matrix.det_mul, Matrix.det_fromBlocks_zero₁₂,
    Matrix.det_fromBlocks_zero₂₁]

/-- The `n`-step map is affine with linear part the `n`-th power of `lfLinear`. -/
theorem lfStep_iterate_affine (dt : K) (A : Matrix (Fin N) (Fin N) K) (b : Vec N K)
    (W : Matrix (Fin N) (Fin N) K) (n : Nat) :
    ∃ t : Fin N ⊕ Fin N → K, ∀ z : Vec N K × Vec N K,
      toVec ((lfStep dt A b W)^[n] z) = (lfLinear dt A W ^ n) *ᵥ toVec z + t := by
  induction n with
  | zero => exact ⟨0, fun z => by simp⟩
  | succ n ih =>
    obtain ⟨t, ht⟩ := ih
    refine ⟨lfLinear dt A W *ᵥ t + lfShift dt A b W, fun z => ?_⟩
    rw [Function.iterate_succ_apply', lfStep_affine, ht, pow_succ', Matrix.mulVec_add,
      Matrix.mulVec_mulVec, add_assoc]

/-- The edge matrix of a parallelepiped is multiplied by the `n`-th power of `lfLinear` under
the `n`-step map. -/
theorem lfStep_iterate_edges (dt : K) (A : Matrix (Fin N) (Fin N) K) (b : Vec N K)
    (W : Matrix (Fin N) (Fin N) K) (n : Nat) (z0 : Fin N ⊕ Fin N → K)
    (V : Matrix (Fin N ⊕ Fin N) (Fin N ⊕ Fin N) K) :
    (Matrix.of fun i j => toVec ((lfStep dt A b W)^[n] (ofVec (z0 + fun k => V k j))) i -
        toVec ((lfStep dt A b W)^[n] (ofVec z0)) i) = lfLinear dt A W ^ n * V := by
  obtain ⟨t, ht⟩ := lfStep_iterate_affine dt A b W n
  have hto : ∀ x : Fin N ⊕ Fin N → K, toVec (ofVec x) = x := fun x => by simp [toVec, ofVec]
  ext i j
  simp only [Matrix.of_apply, ht, hto, Matrix.mulVec_add, Pi.add_apply]
  rw [Matrix.mul_apply]
  simp [Matrix.mulVec, Matrix.dotProduct]

end Volume

/-! ## Energy along the trajectory -/

section Energy

variable {N : Nat} {K : Type} [LinearOrderedField K]

/-- The energy of the code written as a quadratic form in `(m, p)`. -/
theorem hamiltonian_eq (s : Sampler N K) (z : Vec N K × Vec N K) :
    hamiltonian s z = (1 / 2) * (z.1 ⬝ᵥ (s.A *ᵥ z.1)) - s.bT ⬝ᵥ z.1 + s.c +
      (1 / 2) * (z.2 ⬝ᵥ (kineticMatrix s *ᵥ z.2)) := by
  cases h : s.genMomKinetic <;>
    simp [hamiltonian, energy, chi, precomp_misfit, kineticEnergy, kineticMatrix, h, vecMul_dot,
      Matrix.smul_dotProduct]

/-- Algebra of one step: `H - dt²/8 · gᵀ W g` has the same value before and after a half-kick,
drift, half-kick when `A` and `W` are symmetric. -/
theorem shadow_core (A W : Matrix (Fin N) (Fin N) K) (hA : A.IsSymm) (hW : W.IsSymm)
    (b m p g p1 d m' g' p' : Vec N K) (h dt c : K)
    (hg : g = A *ᵥ m - b) (hp1 : p1 = p - h • g) (hd : d = dt • (W *ᵥ p1)) (hm' : m' = m + d)
    (hg' : g' = A *ᵥ m' - b) (hp' : p' = p1 - h • g') (hh : h = 1 / 2 * dt) :
    (1 / 2) * (m' ⬝ᵥ (A *ᵥ m')) - b ⬝ᵥ m' + c + (1 / 2) * (p' ⬝ᵥ (W *ᵥ p')) -
        dt ^ 2 / 8 * (g' ⬝ᵥ (W *ᵥ g')) =
      (1 / 2) * (m ⬝ᵥ (A *ᵥ m)) - b ⬝ᵥ m + c + (1 / 2) * (p ⬝ᵥ (W *ᵥ p)) -
        dt ^ 2 / 8 * (g ⬝ᵥ (W *ᵥ g)) := by
  have hAm : A *ᵥ m = g + b := by rw [hg]; abel
  have hp : p = p1 + h • g := by rw [hp1]; abel
  have f1 : g' = g + A *ᵥ d := by rw [hg', hm', Matrix.mulVec_add, hg]; abel
  have f2 : d ⬝ᵥ g = dt * (p1 ⬝ᵥ (W *ᵥ g)) := by
    rw [hd, Matrix.smul_dotProduct, smul_eq_mul, Matrix.dotProduct_comm,
      dot_mulVec_symm W hW g p1]
  have f3 : d ⬝ᵥ g' = dt * (p1 ⬝ᵥ (W *ᵥ g')) := by
    rw [hd, Matrix.smul_dotProduct, smul_eq_mul, Matrix.dotProduct_comm,
      dot_mulVec_symm W hW g' p1]
  have f4 : d ⬝ᵥ (A *ᵥ d) = dt * (p1 ⬝ᵥ (W *ᵥ g')) - dt * (p1 ⬝ᵥ (W *ᵥ g)) := by
    have : A *ᵥ d = g' - g := by rw [f1]; abel
    rw [this, Matrix.dotProduct_sub, f3, f2]
  have f5 : m' ⬝ᵥ (A *ᵥ m') = m ⬝ᵥ (A *ᵥ m) + 2 * (d ⬝ᵥ (A *ᵥ m)) + d ⬝ᵥ (A *ᵥ d) := by
    rw [hm', Matrix.mulVec_add, Matrix.dotProduct_add, Matrix.add_dotProduct, Matrix.add_dotProduct,
      dot_mulVec_symm A hA m d]
    ring
  have f6 : d ⬝ᵥ (A *ᵥ m) = d ⬝ᵥ g + d ⬝ᵥ b := by rw [hAm, Matrix.dotProduct_add]
  have f7 : b ⬝ᵥ m' = b ⬝ᵥ m + d ⬝ᵥ b := by
    rw [hm', Matrix.dotProduct_add, Matrix.dotProduct_comm b d]
  have e1 : p ⬝ᵥ (W *ᵥ p) = p1 ⬝ᵥ (W *ᵥ p1) + 2 * h * (p1 ⬝ᵥ (W *ᵥ g)) +
      h ^ 2 * (g ⬝ᵥ (W *ᵥ g)) := by
    rw [hp, Matrix.mulVec_add, Matrix.dotProduct_add, Matrix.add_dotProduct, Matrix.add_dotProduct,
      Matrix.mulVec_smul, Matrix.dotProduct_smul, Matrix.dotProduct_smul, Matrix.smul_dotProduct,
      Matrix.smul_dotProduct, dot_mulVec_symm W hW g p1]
    simp only [smul_eq_mul]
    ring
  have e2 : p' ⬝ᵥ (W *ᵥ p') = p1 ⬝ᵥ (W *ᵥ p1) - 2 * h * (p1 ⬝ᵥ (W *ᵥ g')) +
      h ^ 2 * (g' ⬝ᵥ (W *ᵥ g')) := by
    rw [hp', Matrix.mulVec_sub, Matrix.dotProduct_sub, Matrix.sub_dotProduct, Matrix.sub_dotProduct,
      Matrix.mulVec_smul, Matrix.dotProduct_smul, Matrix.dotProduct_smul, Matrix.smul_dotProduct,
      Matrix.smul_dotProduct, dot_mulVec_symm W hW g' p1]
    simp only [smul_eq_mul]
    ring
  rw [f5, f7, e1, e2, f6, f4, f2, hh]
  ring

/-- One step of the integrator conserves the modified energy `H - dt²/8 · gᵀ W g`. -/
theorem shadow_step (s : Sampler N K) (hA : s.A.IsSymm) (hW : (kineticMatrix s).IsSymm) (dt : K)
    (z : Vec N K × Vec N K) :
    hamiltonian s (lfStep dt s.A s.bT (kineticMatrix s) z) -
        dt ^ 2 / 8 * gradForm s (lfStep dt s.A s.bT (kineticMatrix s) z) =
      hamiltonian s z - dt ^ 2 / 8 * gradForm s z := by
  rw [hamiltonian_eq, hamiltonian_eq]
  exact shadow_core s.A (kineticMatrix s) hA hW s.bT z.1 z.2 _ _ _ _ _ _ (1 / 2 * dt) dt s.c
    rfl rfl rfl rfl rfl rfl rfl

/-- After `k` steps the energy has changed by `dt²/8` times the change of `gᵀ W g`. -/
theorem shadow_iterate (s : Sampler N K) (hA : s.A.IsSymm) (hW : (kineticMatrix s).IsSymm) (dt : K)
    (k : Nat) (z : Vec N K × Vec N K) :
    hamiltonian s ((lfStep dt s.A s.bT (kineticMatrix s))^[k] z) - hamiltonian s z =
      dt ^ 2 * ((gradForm s ((lfStep dt s.A s.bT (kineticMatrix s))^[k] z) - gradForm s z) / 8) := by
  induction k with
  | zero => simp
  | succ k ih =>
    rw [Function.iterate_succ_apply']
    have := shadow_step s hA hW dt ((lfStep dt s.A s.bT (kineticMatrix s))^[k] z)
    linear_combination this + ih
end Energy

section EnergyReal

variable {N : Nat}

/-- The step is continuous in the step size and the phase-space point jointly. -/
theorem lfStep_continuous (A : Matrix (Fin N) (Fin N) ℝ) (b : Vec N ℝ) (W : Matrix (Fin N) (Fin N) ℝ) :
    Continuous (fun x : ℝ × (Vec N ℝ × Vec N ℝ) => lfStep x.1 A b W x.2) := by
  unfold lfStep
  have h1 : Continuous (fun x : ℝ × (Vec N ℝ × Vec N ℝ) =>
      x.2.2 - ((1 / 2 : ℝ) * x.1) • (A *ᵥ x.2.1 - b)) :=
    (continuous_snd.comp continuous_snd).sub
      ((continuous_const.mul continuous_fst).smul
        ((Continuous.matrix_mulVec continuous_const (continuous_fst.comp continuous_snd)).sub
          continuous_const))
  have h2 : Continuous (fun x : ℝ × (Vec N ℝ × Vec N ℝ) =>
      x.2.1 + x.1 • (W *ᵥ (x.2.2 - ((1 / 2 : ℝ) * x.1) • (A *ᵥ x.2.1 - b)))) :=
    (continuous_fst.comp continuous_snd).add
      (continuous_fst.smul (Continuous.matrix_mulVec continuous_const h1))
  exact h2.prod_mk (h1.sub ((continuous_const.mul continuous_fst).smul
    ((Continuous.matrix_mulVec continuous_const h2).sub continuous_const)))

/-- The `k`-th iterate from a fixed start is continuous in the step size. -/
theorem lfStep_iterate_continuous (A : Matrix (Fin N) (Fin N) ℝ) (b : Vec N ℝ)
    (W : Matrix (Fin N) (Fin N) ℝ) (k : Nat) (z : Vec N ℝ × Vec N ℝ) :
    Continuous (fun dt : ℝ => (lfStep dt A b W)^[k] z) := by
  induction k with
  | zero => exact continuous_const
  | succ k ih =>
    simp only [Function.iterate_succ_apply']
    exact (lfStep_continuous A b W).comp (continuous_id.prod_mk ih)

/-- The form `gᵀ W g` is continuous in the phase-space point. -/
theorem gradForm_continuous (s : Sampler N ℝ) : Continuous (fun z : Vec N ℝ × Vec N ℝ => gradForm s z) := by
  unfold gradForm precomp_misfitGradAt
  have h1 : Continuous (fun z : Vec N ℝ × Vec N ℝ => s.A *ᵥ z.1 - s.bT) :=
    (Continuous.matrix_mulVec continuous_const continuous_fst).sub continuous_const
  exact Continuous.matrix_dotProduct h1 (Continuous.matrix_mulVec continuous_const h1)

end EnergyReal

/-! ## The loop of `sample` -/

section SampleLoop

variable {N : Nat} {K : Type} [LinearOrderedField K]

/-- Member `propose_hamilton` only changes the proposed momentum. -/
theorem propose_hamilton_eq (lib : Lib N K) (s : Sampler N K) (d : Draw N K) :
    propose_hamilton lib s d =
      { s with proposedMomentum := (propose_hamilton lib s d).proposedMomentum } := by
  cases h : s.norMom <;> simp [propose_hamilton, h]

/-- Member `leap_frog` keeps the current model and the settings. -/
theorem leap_frog_frame (s : Sampler N K) (uturns : Nat) (wt : Bool) :
    (leap_frog s uturns wt).sampler.currentModel = s.currentModel ∧
    (leap_frog s uturns wt).sampler.hmc = s.hmc ∧
    (leap_frog s uturns wt).sampler.testBefore = s.testBefore ∧
    (leap_frog s uturns wt).sampler.proposals = s.proposals := by
  obtain ⟨j, _, _, e⟩ := leap_frog_result s uturns wt
  rw [e]
  exact ⟨rfl, rfl, rfl, rfl⟩

/-- Member `propose_hamilton` keeps the models and the settings. -/
theorem propose_hamilton_frame (lib : Lib N K) (s : Sampler N K) (d : Draw N K) :
    (propose_hamilton lib s d).currentModel = s.currentModel ∧
    (propose_hamilton lib s d).proposedModel = s.proposedModel ∧
    (propose_hamilton lib s d).hmc = s.hmc ∧
    (propose_hamilton lib s d).testBefore = s.testBefore := by
  rw [propose_hamilton_eq]
  exact ⟨rfl, rfl, rfl, rfl⟩

/-- The proposal part of an iteration keeps the stored energy, the counter of accepted
models, the samples file, the current model and the settings. -/
theorem propose_frame (lib : Lib N K) (it : Nat) (st : SampleState N K) (d : Draw N K) :
    (propose lib it st d).x = st.x ∧
    (propose lib it st d).accepted = st.accepted ∧
    (propose lib it st d).samplesfile = st.samplesfile ∧
    (propose lib it st d).sampler.currentModel = st.sampler.currentModel ∧
    (propose lib it st d).sampler.hmc = st.sampler.hmc ∧
    (propose lib it st d).sampler.testBefore = st.sampler.testBefore := by
  obtain ⟨q1, _, q3, q4⟩ := propose_hamilton_frame lib st.sampler d
  obtain ⟨f1, f2, f3, _⟩ := leap_frog_frame (propose_hamilton lib st.sampler d) st.uturns
    (decide (it = (propose_hamilton lib st.sampler d).proposals - 1))
  unfold propose
  cases h : st.sampler.hmc
  · simp [propose_metropolis, h]
  · cases h2 : st.sampler.testBefore
    · have h3 : (propose_hamilton lib st.sampler d).testBefore = false := by rw [q4]; exact h2
      simp only [if_true, h3, Bool.not_false, call_leap_frog, f1, f2, f3, q1, q3, q4, h, h2]
      simp
    · have h3 : (propose_hamilton lib st.sampler d).testBefore = true := by rw [q4]; exact h2
      simp only [if_true, h3, Bool.not_true, Bool.false_eq_true, if_false, q1, q3, q4, h, h2]
      simp

/-- On the evaluate-before-propagate path the proposal part only draws the momentum. -/
theorem propose_testBefore (lib : Lib N K) (it : Nat) (st : SampleState N K) (d : Draw N K)
    (h1 : st.sampler.hmc = true) (h2 : st.sampler.testBefore = true) :
    propose lib it st d = { st with sampler := propose_hamilton lib st.sampler d } := by
  have h3 : (propose_hamilton lib st.sampler d).testBefore = true := by
    rw [(propose_hamilton_frame lib st.sampler d).2.2.2]; exact h2
  simp [propose, h1, h3]

/-- One iteration keeps the invariant of the evaluate-before-propagate path. -/
theorem sample_iteration_inv (lib : Lib N K) (it : Nat) (st : SampleState N K) (d : Draw N K)
    (h : testBeforeInv st) : testBeforeInv (sample_iteration lib it st d) := by
  obtain ⟨h0, h1, h2⟩ := h
  obtain ⟨q1, q2, q3, q4⟩ := propose_hamilton_frame lib st.sampler d
  have hp := propose_testBefore lib it st d h1 h2
  unfold sample_iteration
  by_cases ha : acceptTest lib.exp (propose lib it st d).x (x_new (propose lib it st d)) d.u = true
  · simp only [ha, if_true]
    rw [hp]
    obtain ⟨f1, f2, f3, _⟩ := leap_frog_frame (propose_hamilton lib st.sampler d) st.uturns
      (decide (it = (propose_hamilton lib st.sampler d).proposals - 1))
    simp only [testBeforeInv, accept, q4, h2, if_true, call_leap_frog, f2, f3, q3, h1]
    simp
  · simp only [ha, if_false, Bool.false_eq_true]
    rw [hp]
    exact ⟨by rw [q1, q2]; exact h0, by rw [q3]; exact h1, by rw [q4]; exact h2⟩

/-- The loop keeps the invariant of the evaluate-before-propagate path. -/
theorem sample_loop_inv (lib : Lib N K) (draws : Nat → Draw N K) (its : List Nat) :
    ∀ st : SampleState N K, testBeforeInv st → testBeforeInv (sample_loop lib draws its st) := by
  induction its with
  | nil => intro st h; exact h
  | cons it its ih =>
    intro st h
    exact ih _ (sample_iteration_inv lib it st (draws it) h)

/-- The accept branch keeps the algorithm flags. -/
theorem accept_flags (it : Nat) (st : SampleState N K) (xnew : K) :
    (accept it st xnew).sampler.hmc = st.sampler.hmc ∧
    (accept it st xnew).sampler.testBefore = st.sampler.testBefore := by
  obtain ⟨_, f2, f3, _⟩ := leap_frog_frame st.sampler st.uturns
    (decide (it = st.sampler.proposals - 1))
  cases h : st.sampler.testBefore
  · simp [accept, h]
  · simp only [accept, h, if_true, call_leap_frog, f2, f3]
    simp

/-- One iteration keeps the algorithm flags. -/
theorem sample_iteration_flags (lib : Lib N K) (it : Nat) (st : SampleState N K) (d : Draw N K) :
    (sample_iteration lib it st d).sampler.hmc = st.sampler.hmc ∧
    (sample_iteration lib it st d).sampler.testBefore = st.sampler.testBefore := by
  obtain ⟨_, _, _, _, p5, p6⟩ := propose_frame lib it st d
  unfold sample_iteration
  by_cases ha : acceptTest lib.exp (propose lib it st d).x (x_new (propose lib it st d)) d.u = true
  · simp only [ha, if_true]
    obtain ⟨a1, a2⟩ := accept_flags it (propose lib it st d) (x_new (propose lib it st d))
    exact ⟨a1.trans p5, a2.trans p6⟩
  · simp only [ha, if_false, Bool.false_eq_true]
    exact ⟨p5, p6⟩

/-- The loop keeps the algorithm flags. -/
theorem sample_loop_flags (lib : Lib N K) (draws : Nat → Draw N K) (its : List Nat) :
    ∀ st : SampleState N K,
      (sample_loop lib draws its st).sampler.hmc = st.sampler.hmc ∧
      (sample_loop lib draws its st).sampler.testBefore = st.sampler.testBefore := by
  induction its with
  | nil => intro st; exact ⟨rfl, rfl⟩
  | cons it its ih =>
    intro st
    obtain ⟨a, b⟩ := ih (sample_iteration lib it st (draws it))
    obtain ⟨c, e⟩ := sample_iteration_flags lib it st (draws it)
    exact ⟨a.trans c, b.trans e⟩

/-- The accept branch writes the proposed model it makes current together with `x_new`. -/
theorem accept_record (it : Nat) (st : SampleState N K) (xnew : K) :
    recordInv (accept it st xnew) := by
  cases h : st.sampler.testBefore <;> simp [recordInv, accept, h]

/-- One iteration keeps the last line of the samples file in step with the chain state. -/
theorem sample_iteration_record (lib : Lib N K) (it : Nat) (st : SampleState N K) (d : Draw N K)
    (h : recordInv st) : recordInv (sample_iteration lib it st d) := by
  obtain ⟨p1, _, p3, p4, _, _⟩ := propose_frame lib it st d
  unfold sample_iteration
  by_cases ha : acceptTest lib.exp (propose lib it st d).x (x_new (propose lib it st d)) d.u = true
  · simp only [ha, if_true]
    exact accept_record _ _ _
  · simp only [ha, if_false, Bool.false_eq_true]
    unfold recordInv at h ⊢
    rw [p1, p3, p4]
    exact h

/-- The loop keeps the last line of the samples file in step with the chain state. -/
theorem sample_loop_record (lib : Lib N K) (draws : Nat → Draw N K) (its : List Nat) :
    ∀ st : SampleState N K, recordInv st → recordInv (sample_loop lib draws its st) := by
  induction its with
  | nil => intro st h; exact h
  | cons it its ih =>
    intro st h
    exact ih _ (sample_iteration_record lib it st (draws it) h)

/-- One iteration raises the counter and the number of sample lines by one exactly when the
accept branch is taken. -/
theorem sample_iteration_counts (lib : Lib N K) (it : Nat) (st : SampleState N K) (d : Draw N K) :
    (sample_iteration lib it st d).accepted = st.accepted +
      (if acceptTest lib.exp (propose lib it st d).x (x_new (propose lib it st d)) d.u
        then 1 else 0) ∧
    (sample_iteration lib it st d).samplesfile.length = st.samplesfile.length +
      (if acceptTest lib.exp (propose lib it st d).x (x_new (propose lib it st d)) d.u
        then 1 else 0) := by
  obtain ⟨_, p2, p3, _, _, _⟩ := propose_frame lib it st d
  unfold sample_iteration
  by_cases ha : acceptTest lib.exp (propose lib it st d).x (x_new (propose lib it st d)) d.u = true
  · simp only [ha, if_true]
    cases h : (propose lib it st d).sampler.testBefore <;>
      simp [accept, h, call_leap_frog, p2, p3]
  · simp only [ha, if_false, Bool.false_eq_true, add_zero]
    rw [p2, p3]
    exact ⟨rfl, rfl⟩

/-- The loop raises the counter and the number of sample lines by the number of iterations
that take the accept branch. -/
theorem sample_loop_counts (lib : Lib N K) (draws : Nat → Draw N K) (its : List Nat) :
    ∀ st : SampleState N K,
      (sample_loop lib draws its st).accepted = st.accepted + acceptedIterations lib draws its st ∧
      (sample_loop lib draws its st).samplesfile.length =
        st.samplesfile.length + acceptedIterations lib draws its st := by
  induction its with
  | nil => intro st; exact ⟨rfl, rfl⟩
  | cons it its ih =>
    intro st
    obtain ⟨a, b⟩ := ih (sample_iteration lib it st (draws it))
    obtain ⟨c, e⟩ := sample_iteration_counts lib it st (draws it)
    have ha : sample_loop lib draws (it :: its) st =
        sample_loop lib draws its (sample_iteration lib it st (draws it)) := rfl
    rw [ha, a, b, c, e, acceptedIterations]
    omega

end SampleLoop

/-! ## The option loop -/

section Parse

variable {K : Type}

/-- Updates that keep or fix a member compose to one that does. -/
theorem fieldConst_comp {α : Type} {p : InversionSettings K → α}
    {F G : InversionSettings K → InversionSettings K} (hF : FieldConst p F) (hG : FieldConst p G) :
    FieldConst p (fun s => G (F s)) := by
  rcases hG with hG | ⟨c, hG⟩
  · rcases hF with hF | ⟨c, hF⟩
    · exact Or.inl fun s => (hG (F s)).trans (hF s)
    · exact Or.inr ⟨c, fun s => (hG (F s)).trans (hF s)⟩
  · exact Or.inr ⟨c, fun s => hG (F s)⟩

/-- Applying such an update twice gives the member the same value as applying it once. -/
theorem fieldConst_idem {α : Type} {p : InversionSettings K → α}
    {F : InversionSettings K → InversionSettings K} (hF : FieldConst p F) (s : InversionSettings K) :
    p (F (F s)) = p (F s) := by
  rcases hF with hF | ⟨c, hF⟩
  · exact hF (F s)
  · rw [hF, hF]

/-- Overriding updates compose. -/
theorem overrides_comp {F G : InversionSettings K → InversionSettings K} (hF : Overrides F)
    (hG : Overrides G) : Overrides (fun s => G (F s)) := by
  obtain ⟨f1, f2, f3, f4, f5, f6, f7, f8, f9, f10, f11, f12, f13, f14, f15, f16, f17⟩ := hF
  obtain ⟨g1, g2, g3, g4, g5, g6, g7, g8, g9, g10, g11, g12, g13, g14, g15, g16, g17⟩ := hG
  exact ⟨fieldConst_comp f1 g1, fieldConst_comp f2 g2, fieldConst_comp f3 g3, fieldConst_comp f4 g4, fieldConst_comp f5 g5, fieldConst_comp f6 g6, fieldConst_comp f7 g7,
    fieldConst_comp f8 g8, fieldConst_comp f9 g9, fieldConst_comp f10 g10, fieldConst_comp f11 g11, fieldConst_comp f12 g12, fieldConst_comp f13 g13,
    fieldConst_comp f14 g14, fieldConst_comp f15 g15, fieldConst_comp f16 g16, fieldConst_comp f17 g17⟩

/-- An overriding update is idempotent. -/
theorem overrides_idem {F : InversionSettings K → InversionSettings K} (hF : Overrides F)
    (s : InversionSettings K) : F (F s) = F s := by
  obtain ⟨f1, f2, f3, f4, f5, f6, f7, f8, f9, f10, f11, f12, f13, f14, f15, f16, f17⟩ := hF
  exact InversionSettings.ext (fieldConst_idem f1 s) (fieldConst_idem f2 s) (fieldConst_idem f3 s) (fieldConst_idem f4 s) (fieldConst_idem f5 s)
    (fieldConst_idem f6 s) (fieldConst_idem f7 s) (fieldConst_idem f8 s) (fieldConst_idem f9 s) (fieldConst_idem f10 s) (fieldConst_idem f11 s) (fieldConst_idem f12 s)
    (fieldConst_idem f13 s) (fieldConst_idem f14 s) (fieldConst_idem f15 s) (fieldConst_idem f16 s) (fieldConst_idem f17 s)

/-- Doing nothing is an overriding update. -/
theorem overrides_id : Overrides (fun s : InversionSettings K => s) :=
  ⟨Or.inl fun _ => rfl, Or.inl fun _ => rfl, Or.inl fun _ => rfl, Or.inl fun _ => rfl,
   Or.inl fun _ => rfl, Or.inl fun _ => rfl, Or.inl fun _ => rfl, Or.inl fun _ => rfl,
   Or.inl fun _ => rfl, Or.inl fun _ => rfl, Or.inl fun _ => rfl, Or.inl fun _ => rfl,
   Or.inl fun _ => rfl, Or.inl fun _ => rfl, Or.inl fun _ => rfl, Or.inl fun _ => rfl,
   Or.inl fun _ => rfl⟩

/-- A value either never parses, and `parse_long_unsigned` keeps `to_set` and writes one
line, or always parses to the same number. -/
theorem parse_long_unsigned_const (rd : StreamReaders K) (flag value : String) :
    (rd.read_long_unsigned value = none ∧
      ∀ t, parse_long_unsigned rd flag value t = (t, [invalidInput flag value])) ∨
    ∃ x, ∀ t, parse_long_unsigned rd flag value t = (x, []) := by
  unfold parse_long_unsigned
  cases h : rd.read_long_unsigned value
  · exact Or.inl ⟨rfl, fun _ => rfl⟩
  · exact Or.inr ⟨_, fun _ => rfl⟩

/-- The same for `parse_double`. -/
theorem parse_double_const (rd : StreamReaders K) (flag value : String) :
    (rd.read_double value = none ∧
      ∀ t, parse_double rd flag value t = (t, [invalidInput flag value])) ∨
    ∃ x, ∀ t, parse_double rd flag value t = (x, []) := by
  unfold parse_double
  cases h : rd.read_double value
  · exact Or.inl ⟨rfl, fun _ => rfl⟩
  · exact Or.inr ⟨_, fun _ => rfl⟩

/-- The same for `parse_boolean`. -/
theorem parse_boolean_const (rd : StreamReaders K) (flag value : String) :
    (rd.read_boolean value = none ∧
      ∀ t, parse_boolean rd flag value t = (t, [invalidInput flag value])) ∨
    ∃ x, ∀ t, parse_boolean rd flag value t = (x, []) := by
  unfold parse_boolean
  cases h : rd.read_boolean value
  · exact Or.inl ⟨rfl, fun _ => rfl⟩
  · exact Or.inr ⟨_, fun _ => rfl⟩

/-- Case analysis on one link of an `if` / `else if` chain of optional results. -/
theorem isUpdate_of_ite {c : Prop} [Decidable c]
    {a u : InversionSettings K → InversionSettings K × List String}
    {r : Option (InversionSettings K → InversionSettings K × List String)}
    (h : (if c then some a else r) = some u) (ha : IsUpdate a) (hr : r = some u → IsUpdate u) :
    IsUpdate u := by
  by_cases hc : c
  · rw [if_pos hc] at h
    cases h
    exact ha
  · rw [if_neg hc] at h
    exact hr h

/-- Every branch of the option chain is an update in the sense of `IsUpdate`. -/
theorem applyOption_isUpdate (rd : StreamReaders K) (flag value : String)
    (u : InversionSettings K → InversionSettings K × List String)
    (h : applyOption rd flag value = some u) : IsUpdate u := by
  unfold applyOption at h
  refine isUpdate_of_ite h ?_ fun h =>
    isUpdate_of_ite h ?_ fun h =>
    isUpdate_of_ite h ?_ fun h =>
    isUpdate_of_ite h ?_ fun h =>
    isUpdate_of_ite h ?_ fun h =>
    isUpdate_of_ite h ?_ fun h =>
    isUpdate_of_ite h ?_ fun h =>
    isUpdate_of_ite h ?_ fun h =>
    isUpdate_of_ite h ?_ fun h =>
    isUpdate_of_ite h ?_ fun h =>
    isUpdate_of_ite h ?_ fun h =>
    isUpdate_of_ite h ?_ fun h =>
    isUpdate_of_ite h ?_ fun h =>
    isUpdate_of_ite h ?_ fun h =>
    isUpdate_of_ite h ?_ fun h =>
    isUpdate_of_ite h ?_ fun h =>
    by cases h
  all_goals
    first
    | (refine ⟨⟨?_, ?_, ?_, ?_, ?_, ?_, ?_, ?_, ?_, ?_, ?_, ?_, ?_, ?_, ?_, ?_, ?_⟩, ?_⟩ <;>
       first
     | exact Or.inl (fun _ => rfl)
     | exact Or.inr ⟨_, fun _ => rfl⟩
     | exact ⟨_, fun _ => rfl⟩)
    | (rcases parse_long_unsigned_const rd flag value with ⟨_, h1⟩ | ⟨x1, h1⟩ <;>
       simp only [h1] <;> refine ⟨⟨?_, ?_, ?_, ?_, ?_, ?_, ?_, ?_, ?_, ?_, ?_, ?_, ?_, ?_, ?_, ?_, ?_⟩, ?_⟩ <;>
       first
     | exact Or.inl (fun _ => rfl)
     | exact Or.inr ⟨_, fun _ => rfl⟩
     | exact ⟨_, fun _ => rfl⟩)
    | (rcases parse_double_const rd flag value with ⟨_, h1⟩ | ⟨x1, h1⟩ <;>
       simp only [h1] <;> refine ⟨⟨?_, ?_, ?_, ?_, ?_, ?_, ?_, ?_, ?_, ?_, ?_, ?_, ?_, ?_, ?_, ?_, ?_⟩, ?_⟩ <;>
       first
     | exact Or.inl (fun _ => rfl)
     | exact Or.inr ⟨_, fun _ => rfl⟩
     | exact ⟨_, fun _ => rfl⟩)
    | (rcases parse_boolean_const rd flag value with ⟨_, h1⟩ | ⟨x1, h1⟩ <;>
       simp only [h1] <;> refine ⟨⟨?_, ?_, ?_, ?_, ?_, ?_, ?_, ?_, ?_, ?_, ?_, ?_, ?_, ?_, ?_, ?_, ?_⟩, ?_⟩ <;>
       first
     | exact Or.inl (fun _ => rfl)
     | exact Or.inr ⟨_, fun _ => rfl⟩
     | exact ⟨_, fun _ => rfl⟩)
/-- The loop either ends the program for every start, or returns for every start with the
settings overridden in a way that does not depend on the start, and with the same lines
added to standard error. -/
theorem parse_loop_cases (rd : StreamReaders K) : ∀ (l : List String) (skip : Bool),
    (∀ s e, parse_loop rd skip l s e = .helpExit) ∨
    ∃ F m, Overrides F ∧ ∀ s e, parse_loop rd skip l s e = .returned (F s) (e ++ m) := by
  intro l
  induction l with
  | nil =>
    intro skip
    exact Or.inr ⟨fun s => s, [], overrides_id, fun s e => by cases skip <;> simp [parse_loop]⟩
  | cons a rest ih =>
    intro skip
    cases skip
    · by_cases ha : a = "-h" ∨ a = "--help"
      · exact Or.inl fun s e => by simp [parse_loop, ha]
      · cases rest with
        | nil =>
          exact Or.inr ⟨fun s => s, [], overrides_id, fun s e => by simp [parse_loop, ha]⟩
        | cons v rest1 =>
          cases hu : applyOption rd a v with
          | none =>
            rcases ih false with h | ⟨F, m, hF, h⟩
            · exact Or.inl fun s e => by rw [parse_loop, if_neg ha]; simp only [hu]; exact h s e
            · exact Or.inr ⟨F, m, hF, fun s e => by
                rw [parse_loop, if_neg ha]; simp only [hu]; exact h s e⟩
          | some u =>
            obtain ⟨hO, mu, hmu⟩ := applyOption_isUpdate rd a v u hu
            rcases ih true with h | ⟨F, m, hF, h⟩
            · exact Or.inl fun s e => by rw [parse_loop, if_neg ha]; simp only [hu]; exact h _ _
            · refine Or.inr ⟨fun s => F (u s).1, mu ++ m, overrides_comp hO hF, fun s e => ?_⟩
              rw [parse_loop, if_neg ha]
              simp only [hu]
              rw [h, hmu, List.append_assoc]
    · rcases ih false with h | ⟨F, m, hF, h⟩
      · exact Or.inl fun s e => by rw [parse_loop]; exact h s e
      · exact Or.inr ⟨F, m, hF, fun s e => by rw [parse_loop]; exact h s e⟩

/-- Without a help option among the arguments the loop returns. -/
theorem parse_loop_returns (rd : StreamReaders K) : ∀ (l : List String) (skip : Bool),
    (∀ a ∈ l, a ≠ "-h" ∧ a ≠ "--help") →
    ∀ s e, ∃ s1 e1, parse_loop rd skip l s e = .returned s1 e1 := by
  intro l
  induction l with
  | nil => intro skip _ s e; exact ⟨s, e, by cases skip <;> simp [parse_loop]⟩
  | cons a rest ih =>
    intro skip hl s e
    have hrest : ∀ b ∈ rest, b ≠ "-h" ∧ b ≠ "--help" :=
      fun b hb => hl b (List.mem_cons_of_mem a hb)
    have ha : ¬ (a = "-h" ∨ a = "--help") := by
      have := hl a (List.mem_cons_self a rest)
      tauto
    cases skip
    · cases rest with
      | nil => exact ⟨s, e, by simp [parse_loop, ha]⟩
      | cons v rest1 =>
        cases hu : applyOption rd a v with
        | none =>
          obtain ⟨s1, e1, h⟩ := ih false hrest s e
          exact ⟨s1, e1, by rw [parse_loop, if_neg ha]; simp only [hu]; exact h⟩
        | some u =>
          obtain ⟨s1, e1, h⟩ := ih true hrest (u s).1 (e ++ (u s).2)
          exact ⟨s1, e1, by rw [parse_loop, if_neg ha]; simp only [hu]; exact h⟩
    · obtain ⟨s1, e1, h⟩ := ih false hrest s e
      exact ⟨s1, e1, by rw [parse_loop]; exact h⟩

/-- For arguments with `argc ≥ 2` and no help option, `parse_input` returns, with settings
that result from the start by an update in the sense of `Overrides`. -/
theorem parse_input_returns (rd : StreamReaders K) (argv : List String)
    (hlen : 2 ≤ argv.length) (hhelp : ∀ a ∈ argv, a ≠ "-h" ∧ a ≠ "--help") :
    ∃ F m, Overrides F ∧ ∀ s e, parse_input rd argv s e = .returned (F s) (e ++ m) := by
  have hlt : ¬ argv.length < 2 := by omega
  have htail : ∀ a ∈ argv.tail, a ≠ "-h" ∧ a ≠ "--help" :=
    fun a ha => hhelp a (List.mem_of_mem_tail ha)
  rcases parse_loop_cases rd argv.tail false with h | ⟨F, m, hF, h⟩
  · refine ⟨fun s => s, [], overrides_id, fun s e => ?_⟩
    obtain ⟨s1, e1, h1⟩ := parse_loop_returns rd argv.tail false htail s []
    rw [h s []] at h1
    cases h1
  · exact ⟨F, m, hF, fun s e => by rw [parse_input, if_neg hlt]; exact h s e⟩

end Parse

/-! ## The example sampler evaluated -/

section ExampleFacts

/-- Matrix `A` of the example sampler. -/
theorem exSampler_A : exSampler.A = !![3, 1; 1, 3] := by
  ext i j
  fin_cases i <;> fin_cases j <;>
    simp [exSampler, sampler, exPrior, exData, exModel, Matrix.mul_apply, Fin.sum_univ_succ] <;>
    norm_num

/-- Vector `bT` of the example sampler. -/
theorem exSampler_bT : exSampler.bT = ![1, 3] := by
  ext i
  fin_cases i <;>
    simp [exSampler, sampler, exPrior, exData, exModel, Matrix.mul_apply, Matrix.mulVec,
      Matrix.dotProduct, Fin.sum_univ_succ]
  norm_num

/-- The example sampler uses the identity as inverse mass matrix. -/
theorem exSampler_W : kineticMatrix exSampler = 1 := by
  simp [kineticMatrix, exSampler, sampler, exSettings, exLib]

/-- The example sampler starts at the origin. -/
theorem exSampler_currentModel : exSampler.currentModel = ![0, 0] := rfl

/-- Starting momentum of the example sampler. -/
theorem exSampler_proposedMomentum : exSampler.proposedMomentum = ![1, 0] := rfl

/-- One step of the example sampler in coordinates. -/
theorem exSampler_step (a b c d : ℚ) : samplerStep exSampler (![a, b], ![c, d]) =
    (![a + (1 / 2) * (c - (1 / 4) * (3 * a + b - 1)),
       b + (1 / 2) * (d - (1 / 4) * (a + 3 * b - 3))],
     ![c - (1 / 4) * (3 * a + b - 1) -
         (1 / 4) * (3 * (a + (1 / 2) * (c - (1 / 4) * (3 * a + b - 1))) +
           (b + (1 / 2) * (d - (1 / 4) * (a + 3 * b - 3))) - 1),
       d - (1 / 4) * (a + 3 * b - 3) -
         (1 / 4) * ((a + (1 / 2) * (c - (1 / 4) * (3 * a + b - 1))) +
           3 * (b + (1 / 2) * (d - (1 / 4) * (a + 3 * b - 3))) - 3)]) := by
  have hdt : exSampler.dt = 1 / 2 := rfl
  rw [samplerStep, exSampler_A, exSampler_bT, exSampler_W, hdt]
  ext i <;> fin_cases i <;>
    simp [lfStep, Matrix.mulVec, Matrix.dotProduct, Fin.sum_univ_succ, Matrix.vecHead,
      Matrix.vecTail] <;> ring

/-- First point of the example trajectory. -/
theorem exSampler_iterate1 :
    (samplerStep exSampler)^[1] (exSampler.currentModel, exSampler.proposedMomentum) =
      (![5 / 8, 3 / 8], ![15 / 16, 17 / 16]) := by
  rw [exSampler_currentModel, exSampler_proposedMomentum, Function.iterate_one, exSampler_step]
  norm_num

/-- Second point of the example trajectory. -/
theorem exSampler_iterate2 :
    (samplerStep exSampler)^[2] (exSampler.currentModel, exSampler.proposedMomentum) =
      (![15 / 16, 17 / 16], ![-3 / 32, 35 / 32]) := by
  rw [Function.iterate_succ_apply', exSampler_iterate1, exSampler_step]
  norm_num

/-- Third point of the example trajectory. -/
theorem exSampler_iterate3 :
    (samplerStep exSampler)^[3] (exSampler.currentModel, exSampler.proposedMomentum) =
      (![17 / 32, 47 / 32], ![-85 / 64, 21 / 64]) := by
  rw [Function.iterate_succ_apply', exSampler_iterate2, exSampler_step]
  norm_num

/-- No U-turn after the first step of the example trajectory. -/
theorem exSampler_no_uturn1 : ¬ uturnAfter exSampler 1 := by
  rw [uturnAfter, exSampler_iterate1, exSampler_currentModel, exSampler_proposedMomentum]
  simp [uturnAt, Matrix.dotProduct, Fin.sum_univ_succ]
  norm_num

/-- No U-turn after the second step of the example trajectory. -/
theorem exSampler_no_uturn2 : ¬ uturnAfter exSampler 2 := by
  rw [uturnAfter, exSampler_iterate2, exSampler_currentModel, exSampler_proposedMomentum]
  simp [uturnAt, Matrix.dotProduct, Fin.sum_univ_succ]
  norm_num

/-- The example trajectory turns back at its third step. -/
theorem exSampler_uturn3 : uturnAfter exSampler 3 := by
  rw [uturnAfter, exSampler_iterate3, exSampler_currentModel, exSampler_proposedMomentum]
  simp [uturnAt, Matrix.dotProduct, Fin.sum_univ_succ]
  norm_num

/-- The first two steps of the example trajectory do not meet the no-U-turn condition. -/
theorem exSampler_no_uturn_upto2 (j : Nat) (h1 : 1 ≤ j) (h2 : j ≤ 2) : ¬ uturnAfter exSampler j := by
  obtain rfl | rfl : j = 1 ∨ j = 2 := by omega
  · exact exSampler_no_uturn1
  · exact exSampler_no_uturn2

/-- The forward run of the example sampler ends at the second iterate. -/
theorem exSampler_leap_frog :
    (leap_frog exSampler 0 false).sampler =
      { exSampler with
        proposedModel := ![15 / 16, 17 / 16]
        proposedMomentum := ![-3 / 32, 35 / 32]
        currentMomentum := exSampler.proposedMomentum } := by
  obtain ⟨j, _, e1, e2⟩ := leap_frog_result exSampler 0 false
  have hj : j = 2 := by
    rw [← e1]
    exact leap_frog_steps_of_no_uturn exSampler 0 false exSampler_no_uturn_upto2
  subst hj
  rw [e2, exSampler_iterate2]

/-- The backward run starts where the forward run stopped. -/
theorem exSamplerBack_currentModel : exSamplerBack.currentModel = ![15 / 16, 17 / 16] := by
  rw [exSamplerBack, exSampler_leap_frog]
  rfl

/-- The backward run starts with the final momentum flipped. -/
theorem exSamplerBack_proposedMomentum : exSamplerBack.proposedMomentum = ![3 / 32, -35 / 32] := by
  rw [exSamplerBack, exSampler_leap_frog]
  show -![-3 / 32, 35 / 32] = ![3 / 32, -35 / 32]
  ext i
  fin_cases i <;> simp <;> norm_num

/-- The backward run uses the same step. -/
theorem exSamplerBack_step : samplerStep exSamplerBack = samplerStep exSampler := by
  rw [exSamplerBack, exSampler_leap_frog]
  rfl

/-- The backward run has two steps as well. -/
theorem exSamplerBack_nt : exSamplerBack.nt = 2 := by
  rw [exSamplerBack, exSampler_leap_frog]
  rfl

/-- First point of the backward trajectory. -/
theorem exSamplerBack_iterate1 :
    (samplerStep exSamplerBack)^[1] (exSamplerBack.currentModel, exSamplerBack.proposedMomentum) =
      (![5 / 8, 3 / 8], ![-15 / 16, -17 / 16]) := by
  rw [exSamplerBack_currentModel, exSamplerBack_proposedMomentum, exSamplerBack_step,
    Function.iterate_one, exSampler_step]
  norm_num

/-- Second point of the backward trajectory: the start with flipped momentum. -/
theorem exSamplerBack_iterate2 :
    (samplerStep exSamplerBack)^[2] (exSamplerBack.currentModel, exSamplerBack.proposedMomentum) =
      (![0, 0], ![-1, 0]) := by
  rw [Function.iterate_succ_apply', exSamplerBack_iterate1, exSamplerBack_step, exSampler_step]
  norm_num

/-- The backward run does not meet the no-U-turn condition either. -/
theorem exSamplerBack_no_uturn (j : Nat) (h1 : 1 ≤ j) (h2 : j ≤ exSamplerBack.nt) :
    ¬ uturnAfter exSamplerBack j := by
  rw [exSamplerBack_nt] at h2
  obtain rfl | rfl : j = 1 ∨ j = 2 := by omega
  · rw [uturnAfter, exSamplerBack_iterate1, exSamplerBack_currentModel,
      exSamplerBack_proposedMomentum]
    simp [uturnAt, Matrix.dotProduct, Fin.sum_univ_succ]
    norm_num
  · rw [uturnAfter, exSamplerBack_iterate2, exSamplerBack_currentModel,
      exSamplerBack_proposedMomentum]
    simp [uturnAt, Matrix.dotProduct, Fin.sum_univ_succ]
    norm_num

/-- Constant `c` of the example sampler. -/
theorem exSampler_c : exSampler.c = 3 / 2 := by
  simp [exSampler, sampler, exPrior, exData, Matrix.vecMul, Matrix.dotProduct, Fin.sum_univ_succ]
  norm_num

/-- Energy of the first proposal from the example state. -/
theorem exState_x_new : x_new (propose exLib 1 exState exDraw) = 2 := by
  have h : propose exLib 1 exState exDraw =
      { exState with sampler := propose_hamilton exLib exState.sampler exDraw } :=
    propose_testBefore exLib 1 exState exDraw rfl rfl
  rw [h]
  have h2 : propose_hamilton exLib exState.sampler exDraw = exSampler := rfl
  simp only [h2, x_new]
  have h3 : exSampler.hmc = true := rfl
  have h4 : exSampler.genMomKinetic = true := rfl
  have h5 : exSampler.inverseMassMatrix = 1 := by
    simp [exSampler, sampler, exLib]
  have h6 : exSampler.proposedModel = ![0, 0] := rfl
  simp only [h3, if_true, energy, chi, precomp_misfit, kineticEnergy, h4, h5, h6, exSampler_c,
    exSampler_A, exSampler_bT, exSampler_proposedMomentum]
  simp [Matrix.vecMul, Matrix.dotProduct, Matrix.mulVec, Fin.sum_univ_succ]
  norm_num

/-- The first proposal from the example state passes the acceptance test. -/
theorem exState_accept :
    acceptTest exLib.exp exState.x (x_new (propose exLib 1 exState exDraw)) exDraw.u = true := by
  rw [exState_x_new]
  have : exState.x = 100 := rfl
  rw [this]
  simp [acceptTest]
  left; norm_num

/-- Initial misfit of the Metropolis-Hastings example. -/
theorem exSamplerMH_init_x : (sample_init exSamplerMH).x = 3 / 2 := by
  have h6 : exSampler.proposedModel = ![0, 0] := rfl
  show chi exSampler = 3 / 2
  simp only [chi, precomp_misfit, h6, exSampler_c, exSampler_A, exSampler_bT]
  simp [Matrix.dotProduct, Matrix.mulVec, Fin.sum_univ_succ]

/-- Misfit of the model (0, 1) drawn from the prior. -/
theorem exSamplerMH_x_new : x_new (propose exLib 1 (sample_init exSamplerMH) exDrawMH) = 0 := by
  show chi { exSampler with proposedModel := ![0, 1] } = 0
  simp only [chi, precomp_misfit, exSampler_c, exSampler_A, exSampler_bT]
  simp [Matrix.dotProduct, Matrix.mulVec, Fin.sum_univ_succ]
  norm_num

/-- The drawn model passes the acceptance test. -/
theorem exSamplerMH_accept :
    acceptTest exLib.exp (sample_init exSamplerMH).x
      (x_new (propose exLib 1 (sample_init exSamplerMH) exDrawMH)) exDrawMH.u = true := by
  rw [exSamplerMH_x_new, exSamplerMH_init_x]
  simp [acceptTest]

/-- The first Metropolis-Hastings iteration takes the accept branch. -/
theorem exSamplerMH_iteration :
    sample_iteration exLib 1 (sample_init exSamplerMH) exDrawMH =
      accept 1 (propose exLib 1 (sample_init exSamplerMH) exDrawMH) 0 := by
  have h := exSamplerMH_accept
  rw [exSamplerMH_x_new] at h
  have h2 : (propose exLib 1 (sample_init exSamplerMH) exDrawMH).x = (sample_init exSamplerMH).x := rfl
  simp only [sample_iteration, h2, exSamplerMH_x_new, h, if_true]

/-- The trajectory run by the accept branch ends at the second iterate from the origin. -/
theorem exSamplerMH_leap_frog :
    (leap_frog (propose exLib 1 (sample_init exSamplerMH) exDrawMH).sampler 0 false).sampler.proposedModel
      = ![15 / 16, 17 / 16] := by
  obtain ⟨j, _, e1, e2⟩ := leap_frog_result
    (propose exLib 1 (sample_init exSamplerMH) exDrawMH).sampler 0 false
  have hs : (leap_frog (propose exLib 1 (sample_init exSamplerMH) exDrawMH).sampler 0 false).steps = 2 :=
    leap_frog_steps_of_no_uturn _ 0 false exSampler_no_uturn_upto2
  have hj : j = 2 := by rw [← e1, hs]
  subst hj
  rw [e2]
  exact congrArg Prod.fst exSampler_iterate2

/-- Only the proposed momentum differs from the example sampler. -/
theorem exSamplerRest_eq : exSamplerRest = { exSampler with proposedMomentum := ![0, 0] } := rfl

/-- First point of the trajectory started at rest. -/
theorem exSamplerRest_iterate1 :
    (samplerStep exSamplerRest)^[1] (exSamplerRest.currentModel, exSamplerRest.proposedMomentum) =
      (![1 / 8, 3 / 8], ![5 / 16, 19 / 16]) := by
  have h1 : samplerStep exSamplerRest = samplerStep exSampler := rfl
  have h2 : exSamplerRest.currentModel = ![0, 0] := rfl
  have h3 : exSamplerRest.proposedMomentum = ![0, 0] := rfl
  rw [h1, h2, h3, Function.iterate_one, exSampler_step]
  norm_num

/-- Second point of the trajectory started at rest. -/
theorem exSamplerRest_iterate2 :
    (samplerStep exSamplerRest)^[2] (exSamplerRest.currentModel, exSamplerRest.proposedMomentum) =
      (![5 / 16, 19 / 16], ![3 / 32, 45 / 32]) := by
  have h1 : samplerStep exSamplerRest = samplerStep exSampler := rfl
  rw [Function.iterate_succ_apply', exSamplerRest_iterate1, h1, exSampler_step]
  norm_num

/-- A trajectory started at rest never meets the no-U-turn condition. -/
theorem exSamplerRest_no_uturn (j : Nat) (_ : 1 ≤ j) (_ : j ≤ exSamplerRest.nt) :
    ¬ uturnAfter exSamplerRest j := by
  have h3 : exSamplerRest.proposedMomentum = ![0, 0] := rfl
  rw [uturnAfter, h3]
  simp [uturnAt, Matrix.dotProduct, Fin.sum_univ_succ]

/-- The trajectory started at rest runs its two steps. -/
theorem exSamplerRest_leap_frog :
    (leap_frog exSamplerRest 0 false).sampler =
      { exSamplerRest with
        proposedModel := ![5 / 16, 19 / 16]
        proposedMomentum := ![3 / 32, 45 / 32]
        currentMomentum := exSamplerRest.proposedMomentum } := by
  obtain ⟨j, _, e1, e2⟩ := leap_frog_result exSamplerRest 0 false
  have hj : j = 2 := by
    rw [← e1]
    exact leap_frog_steps_of_no_uturn exSamplerRest 0 false exSamplerRest_no_uturn
  subst hj
  rw [e2, exSamplerRest_iterate2]

/-- Initial energy of the example chain. -/
theorem exSampler_init_x : (sample_init exSampler).x = 2 := by
  have h := exState_x_new
  have h2 : x_new (propose exLib 1 exState exDraw) = (sample_init exSampler).x := rfl
  rw [← h2, h]

/-- Energy at the origin with the momentum at rest. -/
theorem exSamplerRest_energy : energy exSamplerRest = 3 / 2 := by
  have h4 : exSampler.genMomKinetic = true := rfl
  have h5 : exSampler.inverseMassMatrix = 1 := by simp [exSampler, sampler, exLib]
  have h6 : exSampler.proposedModel = ![0, 0] := rfl
  rw [exSamplerRest_eq]
  simp only [energy, chi, precomp_misfit, kineticEnergy, h4, h5, h6, exSampler_c, exSampler_A,
    exSampler_bT, if_true]
  simp [Matrix.vecMul, Matrix.dotProduct, Matrix.mulVec, Fin.sum_univ_succ]

/-- Energy where the trajectory started at rest stops. -/
theorem exSamplerRest_end_energy :
    energy { exSampler with proposedModel := ![5 / 16, 19 / 16], proposedMomentum := ![3 / 32, 45 / 32] }
      = 1281 / 1024 := by
  have h4 : exSampler.genMomKinetic = true := rfl
  have h5 : exSampler.inverseMassMatrix = 1 := by simp [exSampler, sampler, exLib]
  simp only [energy, chi, precomp_misfit, kineticEnergy, h4, h5, exSampler_c, exSampler_A,
    exSampler_bT, if_true]
  simp [Matrix.vecMul, Matrix.dotProduct, Matrix.mulVec, Fin.sum_univ_succ]
  norm_num

/-- Energy at that model with the momentum at rest. -/
theorem exSamplerRest_end_chi :
    energy { exSampler with proposedModel := ![5 / 16, 19 / 16], proposedMomentum := ![0, 0] }
      = 33 / 128 := by
  have h4 : exSampler.genMomKinetic = true := rfl
  have h5 : exSampler.inverseMassMatrix = 1 := by simp [exSampler, sampler, exLib]
  simp only [energy, chi, precomp_misfit, kineticEnergy, h4, h5, exSampler_c, exSampler_A,
    exSampler_bT, if_true]
  simp [Matrix.vecMul, Matrix.dotProduct, Matrix.mulVec, Fin.sum_univ_succ]
  norm_num

/-- First iteration of the example chain with the momentum at rest. -/
theorem exSamplerRest_iteration :
    sample_iteration exLib 1 (sample_init exSampler) exDrawZero =
      accept 1 { sample_init exSampler with sampler := exSamplerRest } (3 / 2) := by
  have hp : propose exLib 1 (sample_init exSampler) exDrawZero =
      { sample_init exSampler with sampler := exSamplerRest } :=
    propose_testBefore exLib 1 (sample_init exSampler) exDrawZero rfl rfl
  have hx : x_new { sample_init exSampler with sampler := exSamplerRest } = 3 / 2 := by
    show (if exSamplerRest.hmc = true then energy exSamplerRest else chi exSamplerRest) = 3 / 2
    have : exSamplerRest.hmc = true := rfl
    rw [if_pos this, exSamplerRest_energy]
  have hx0 : ({ sample_init exSampler with sampler := exSamplerRest } : SampleState 2 ℚ).x = 2 :=
    exSampler_init_x
  have ha : acceptTest exLib.exp 2 (3 / 2) exDrawZero.u = true := by
    simp [acceptTest]
    left; norm_num
  simp only [sample_iteration, hp, hx, hx0, ha, if_true]

/-- The first iteration takes the accept branch with `x_new = 3/2`. -/
theorem exChain1_eq : exChain1 =
    accept 1 { sample_init exSampler with sampler := exSamplerRest } (3 / 2) :=
  exSamplerRest_iteration

/-- Sampler of the example chain after its first iteration. -/
theorem exChain1_sampler : exChain1.sampler =
    { exSamplerRest with
      proposedModel := ![5 / 16, 19 / 16]
      proposedMomentum := ![3 / 32, 45 / 32]
      currentMomentum := exSamplerRest.proposedMomentum
      currentModel := ![5 / 16, 19 / 16] } := by
  rw [exChain1_eq]
  show ({ (leap_frog exSamplerRest 0 false).sampler with
    currentModel := (leap_frog exSamplerRest 0 false).sampler.proposedModel } : Sampler 2 ℚ) = _
  rw [exSamplerRest_leap_frog]


/-- The first iteration of the example chain with the momentum at rest is accepted. -/
theorem exSamplerRest_accept :
    acceptTest exLib.exp (sample_init exSampler).x
      (x_new (propose exLib 1 (sample_init exSampler) exDrawZero)) exDrawZero.u = true := by
  have hp : propose exLib 1 (sample_init exSampler) exDrawZero =
      { sample_init exSampler with sampler := exSamplerRest } :=
    propose_testBefore exLib 1 (sample_init exSampler) exDrawZero rfl rfl
  have hx : x_new { sample_init exSampler with sampler := exSamplerRest } = 3 / 2 := by
    show (if exSamplerRest.hmc = true then energy exSamplerRest else chi exSamplerRest) = 3 / 2
    have : exSamplerRest.hmc = true := rfl
    rw [if_pos this, exSamplerRest_energy]
  rw [hp, hx, exSampler_init_x]
  simp [acceptTest]
  left; norm_num

/-- Mass matrix of the Cholesky example: 4 I. -/
theorem exChol_massMatrix :
    (sampler exLibChol exPrior exData exModelZero exSettingsG2 exDraw).massMatrix =
      !![4, 0; 0, 4] := by
  ext i j
  fin_cases i <;> fin_cases j <;>
    simp [sampler, exPrior, exData, exModelZero, exSettingsG2, Matrix.mul_apply, Fin.sum_univ_succ] <;>
    norm_num

/-- The stand-in factor satisfies `L Lᵀ = M` on the Cholesky example. -/
theorem exChol_factor :
    (sampler exLibChol exPrior exData exModelZero exSettingsG2 exDraw).CholeskyLowerMassMatrix *
        (sampler exLibChol exPrior exData exModelZero exSettingsG2 exDraw).CholeskyLowerMassMatrixᵀ =
      (sampler exLibChol exPrior exData exModelZero exSettingsG2 exDraw).massMatrix := by
  rw [exChol_massMatrix]
  show !![(2 : ℚ), 0; 0, 2] * !![(2 : ℚ), 0; 0, 2]ᵀ = _
  ext i j
  fin_cases i <;> fin_cases j <;>
    simp [Matrix.mul_apply, Fin.sum_univ_succ, Matrix.transpose_apply, Matrix.vecHead,
      Matrix.vecTail] <;>
    norm_num

/-- The stand-in triangular inverse is a left inverse of the factor. -/
theorem exChol_inverse :
    exLibChol.InvertLowerTriangular
        (sampler exLibChol exPrior exData exModelZero exSettingsG2 exDraw).CholeskyLowerMassMatrix *
      (sampler exLibChol exPrior exData exModelZero exSettingsG2 exDraw).CholeskyLowerMassMatrix = 1 := by
  show !![(1 / 2 : ℚ), 0; 0, 1 / 2] * !![(2 : ℚ), 0; 0, 2] = 1
  ext i j
  fin_cases i <;> fin_cases j <;> simp [Matrix.mul_apply, Fin.sum_univ_succ]

/-- The four-step example stops after its third step. -/
theorem exSampler4_leap_frog :
    (leap_frog exSampler4 0 false).steps = 3 ∧
    (leap_frog exSampler4 0 false).sampler =
      { exSampler4 with
        proposedModel := ![17 / 32, 47 / 32]
        proposedMomentum := ![-85 / 64, 21 / 64]
        currentMomentum := exSampler4.proposedMomentum } := by
  have h3 : uturnAfter exSampler4 3 := exSampler_uturn3
  have hlt : ∀ j, 1 ≤ j → j < 3 → ¬ uturnAfter exSampler4 j :=
    fun j h1 h2 => exSampler_no_uturn_upto2 j h1 (by omega)
  obtain ⟨a, b⟩ := leap_frog_stop_at exSampler4 0 false 3 (by decide) (by decide) h3 hlt
  refine ⟨a, ?_⟩
  rw [b]
  have : (samplerStep exSampler4)^[3] (exSampler4.currentModel, exSampler4.proposedMomentum) =
      (![17 / 32, 47 / 32], ![-85 / 64, 21 / 64]) := exSampler_iterate3
  rw [this]

/-- The backward run of the four-step example starts where the forward run stopped. -/
theorem exSampler4Back_currentModel : exSampler4Back.currentModel = ![17 / 32, 47 / 32] := by
  rw [exSampler4Back, exSampler4_leap_frog.2]
  rfl

/-- Starting momentum of that backward run. -/
theorem exSampler4Back_proposedMomentum : exSampler4Back.proposedMomentum = ![85 / 64, -21 / 64] := by
  rw [exSampler4Back, exSampler4_leap_frog.2]
  show -![-85 / 64, 21 / 64] = ![85 / 64, -21 / 64]
  ext i
  fin_cases i <;> simp <;> norm_num

/-- That backward run uses the same step. -/
theorem exSampler4Back_step : samplerStep exSampler4Back = samplerStep exSampler := by
  rw [exSampler4Back, exSampler4_leap_frog.2]
  rfl

/-- That backward run has four steps. -/
theorem exSampler4Back_nt : exSampler4Back.nt = 4 := by
  rw [exSampler4Back, exSampler4_leap_frog.2]
  rfl

/-- First point of that backward run. -/
theorem exSampler4Back_iterate1 :
    (samplerStep exSampler4Back)^[1] (exSampler4Back.currentModel, exSampler4Back.proposedMomentum) =
      (![15 / 16, 17 / 16], ![3 / 32, -35 / 32]) := by
  rw [exSampler4Back_currentModel, exSampler4Back_proposedMomentum, exSampler4Back_step,
    Function.iterate_one, exSampler_step]
  norm_num

/-- Second point of that backward run. -/
theorem exSampler4Back_iterate2 :
    (samplerStep exSampler4Back)^[2] (exSampler4Back.currentModel, exSampler4Back.proposedMomentum) =
      (![5 / 8, 3 / 8], ![-15 / 16, -17 / 16]) := by
  rw [Function.iterate_succ_apply', exSampler4Back_iterate1, exSampler4Back_step, exSampler_step]
  norm_num

/-- Third point of that backward run: the start with flipped momentum. -/
theorem exSampler4Back_iterate3 :
    (samplerStep exSampler4Back)^[3] (exSampler4Back.currentModel, exSampler4Back.proposedMomentum) =
      (![0, 0], ![-1, 0]) := by
  rw [Function.iterate_succ_apply', exSampler4Back_iterate2, exSampler4Back_step, exSampler_step]
  norm_num

/-- Fourth point of that backward run. -/
theorem exSampler4Back_iterate4 :
    (samplerStep exSampler4Back)^[4] (exSampler4Back.currentModel, exSampler4Back.proposedMomentum) =
      (![-3 / 8, 3 / 8], ![-5 / 16, 21 / 16]) := by
  rw [Function.iterate_succ_apply', exSampler4Back_iterate3, exSampler4Back_step, exSampler_step]
  norm_num

/-- That backward run never meets the no-U-turn condition. -/
theorem exSampler4Back_no_uturn (j : Nat) (h1 : 1 ≤ j) (h2 : j ≤ exSampler4Back.nt) :
    ¬ uturnAfter exSampler4Back j := by
  rw [exSampler4Back_nt] at h2
  obtain rfl | rfl | rfl | rfl : j = 1 ∨ j = 2 ∨ j = 3 ∨ j = 4 := by omega
  · rw [uturnAfter, exSampler4Back_iterate1, exSampler4Back_currentModel,
      exSampler4Back_proposedMomentum]
    simp [uturnAt, Matrix.dotProduct, Fin.sum_univ_succ]
    norm_num
  · rw [uturnAfter, exSampler4Back_iterate2, exSampler4Back_currentModel,
      exSampler4Back_proposedMomentum]
    simp [uturnAt, Matrix.dotProduct, Fin.sum_univ_succ]
    norm_num
  · rw [uturnAfter, exSampler4Back_iterate3, exSampler4Back_currentModel,
      exSampler4Back_proposedMomentum]
    simp [uturnAt, Matrix.dotProduct, Fin.sum_univ_succ]
    norm_num
  · rw [uturnAfter, exSampler4Back_iterate4, exSampler4Back_currentModel,
      exSampler4Back_proposedMomentum]
    simp [uturnAt, Matrix.dotProduct, Fin.sum_univ_succ]
    norm_num

/-- That backward run ends at its fourth point. -/
theorem exSampler4Back_leap_frog :
    phase (leap_frog exSampler4Back 0 false).sampler = (![-3 / 8, 3 / 8], ![-5 / 16, 21 / 16]) := by
  obtain ⟨j, _, e1, e2⟩ := leap_frog_result exSampler4Back 0 false
  have hj : j = 4 := by
    rw [← e1, leap_frog_steps_of_no_uturn exSampler4Back 0 false exSampler4Back_no_uturn,
      exSampler4Back_nt]
  subst hj
  rw [e2]
  exact exSampler4Back_iterate4

end ExampleFacts

/-! ## Claims -/

section Claims

variable {M N : Nat} {K : Type} [LinearOrderedField K]

/-- C1. Posterior form: with `A`, `bT`, `c` as built by the constructor and symmetric
inverse covariances, `precomp_misfit` at any model `m` equals
½ (m−μ)ᵀ Σ_m⁻¹ (m−μ) + ½ (Gm−d)ᵀ Σ_d⁻¹ (Gm−d). -/
theorem precomp_misfit_posterior_form (lib : Lib N K) (prior : Prior N K) (data : Data M K)
    (model : ForwardModel M N K) (settings : Settings K) (d0 : Draw N K) (m : Vec N K)
    (hm : prior.inv_cov_m.IsSymm) (hd : data.inv_cov_d.IsSymm) :
    precomp_misfit { sampler lib prior data model settings d0 with proposedModel := m } =
      (1 / 2) * ((m - prior.means) ⬝ᵥ (prior.inv_cov_m *ᵥ (m - prior.means))) +
      (1 / 2) * ((model.g *ᵥ m - data.observedData) ⬝ᵥ
        (data.inv_cov_d *ᵥ (model.g *ᵥ m - data.observedData))) := by
  have h1 := dot_mulVec_symm prior.inv_cov_m hm prior.means m
  have h2 := dot_mulVec_symm data.inv_cov_d hd data.observedData (model.g *ᵥ m)
  simp only [precomp_misfit, sampler, Matrix.add_mulVec, Matrix.mulVec_sub, Matrix.dotProduct_add,
    Matrix.add_dotProduct, Matrix.sub_dotProduct, Matrix.dotProduct_sub, Matrix.smul_dotProduct,
    vecMul_dot, smul_eq_mul]
  rw [← Matrix.mulVec_mulVec (m) (model.gᵀ * data.inv_cov_d) model.g, dot_gram,
    Matrix.dotProduct_comm (prior.inv_cov_m *ᵥ prior.means) m,
    Matrix.dotProduct_comm ((model.gᵀ * data.inv_cov_d) *ᵥ data.observedData) m, dot_gram, h1, h2]
  ring

/-- Witness of C1 on the example instance, at the model (1, 2). -/
theorem precomp_misfit_posterior_form_witness :
    exPrior.inv_cov_m.IsSymm ∧ exData.inv_cov_d.IsSymm ∧
    precomp_misfit { sampler exLib exPrior exData exModel exSettings exDraw with
        proposedModel := ![1, 2] } =
      (1 / 2) * ((![1, 2] - exPrior.means) ⬝ᵥ (exPrior.inv_cov_m *ᵥ (![1, 2] - exPrior.means))) +
      (1 / 2) * ((exModel.g *ᵥ ![1, 2] - exData.observedData) ⬝ᵥ
        (exData.inv_cov_d *ᵥ (exModel.g *ᵥ ![1, 2] - exData.observedData))) :=
  have h1 : exPrior.inv_cov_m.IsSymm := by
    ext i j; fin_cases i <;> fin_cases j <;> rfl
  have h2 : exData.inv_cov_d.IsSymm := by
    ext i j; fin_cases i; fin_cases j; rfl
  ⟨h1, h2, precomp_misfit_posterior_form exLib exPrior exData exModel exSettings exDraw
    ![1, 2] h1 h2⟩

/-- C2. Gradient consistency: both overloads of `precomp_misfitGrad` return `A m - bT`,
and with `A` symmetric the central difference of `precomp_misfit` along coordinate `i`
with any step `ε ≠ 0` equals component `i` of the gradient. -/
theorem precomp_misfitGrad_consistent (s : Sampler N K) (m : Vec N K) :
    precomp_misfitGrad { s with proposedModel := m } = s.A *ᵥ m - s.bT ∧
    precomp_misfitGradAt s m = s.A *ᵥ m - s.bT ∧
    (s.A.IsSymm → ∀ (i : Fin N) (ε : K), ε ≠ 0 →
      (precomp_misfit { s with proposedModel := m + ε • (Pi.single i 1 : Vec N K) } -
        precomp_misfit { s with proposedModel := m - ε • (Pi.single i 1 : Vec N K) }) / (2 * ε) =
      precomp_misfitGrad { s with proposedModel := m } i) := by
  refine ⟨rfl, rfl, ?_⟩
  intro hA i ε hε
  have h1 := dot_mulVec_symm s.A hA (Pi.single i 1 : Vec N K) m
  simp only [precomp_misfit, precomp_misfitGrad, Matrix.mulVec_add, Matrix.mulVec_sub,
    Matrix.dotProduct_add, Matrix.add_dotProduct, Matrix.sub_dotProduct, Matrix.dotProduct_sub,
    Matrix.smul_dotProduct, Matrix.dotProduct_smul, Matrix.mulVec_smul, smul_eq_mul,
    Pi.sub_apply] at h1 ⊢
  rw [← h1]
  simp only [Matrix.single_dotProduct, Matrix.dotProduct_single, one_mul, mul_one]
  field_simp
  ring

/-- Witness of C2 on the example sampler: model (1, 2), coordinate 0, step ½. -/
theorem precomp_misfitGrad_consistent_witness :
    exSampler.A.IsSymm ∧ (1 / 2 : ℚ) ≠ 0 ∧
    (precomp_misfit { exSampler with proposedModel := ![1, 2] + (1 / 2 : ℚ) • (Pi.single 0 1 : Vec 2 ℚ) } -
        precomp_misfit { exSampler with proposedModel := ![1, 2] - (1 / 2 : ℚ) • (Pi.single 0 1 : Vec 2 ℚ) }) /
        (2 * (1 / 2)) =
      precomp_misfitGrad { exSampler with proposedModel := ![1, 2] } 0 :=
  have hA : exSampler.A.IsSymm := by
    ext i j
    fin_cases i <;> fin_cases j <;>
      simp [exSampler, sampler, exPrior, exData, exModel, Matrix.mul_apply, Fin.sum_univ_succ]
  ⟨hA, by norm_num, (precomp_misfitGrad_consistent exSampler ![1, 2]).2.2 hA 0 (1 / 2) (by norm_num)⟩

/-- C3 (amended). The acceptance test of `sample` accepts iff `x_new < x` or
`exp(-(x_new - x)) > u`: the stated rule with ΔH divided by 1, whatever the temperature
setting is.  The temperature enters nothing: the sampler built from settings that differ
only in the temperature is the same, so neither the accept rule nor the leap-frog
trajectory depends on it. -/
theorem accept_rule_without_temperature (lib : Lib N K) (it : Nat) (st : SampleState N K)
    (d : Draw N K) (prior : Prior N K) (data : Data M K) (model : ForwardModel M N K)
    (settings : Settings K) (d0 : Draw N K) (T : K) :
    (∀ x xnew u : K,
      acceptTest lib.exp x xnew u = true ↔ (xnew < x ∨ lib.exp (-(xnew - x) / 1) > u)) ∧
    sample_iteration lib it st d =
      (if x_new (propose lib it st d) < (propose lib it st d).x ∨
          lib.exp (-(x_new (propose lib it st d) - (propose lib it st d).x) / 1) > d.u
        then accept it (propose lib it st d) (x_new (propose lib it st d))
        else propose lib it st d) ∧
    sampler lib prior data model { settings with temperature := T } d0 =
      sampler lib prior data model settings d0 := by
  have key : ∀ x xnew u : K,
      acceptTest lib.exp x xnew u = true ↔ (xnew < x ∨ lib.exp (-(xnew - x) / 1) > u) := by
    intro x xnew u
    simp [acceptTest, neg_sub]
  refine ⟨key, ?_, rfl⟩
  simp only [sample_iteration]
  by_cases h : acceptTest lib.exp (propose lib it st d).x (x_new (propose lib it st d)) d.u = true
  · rw [if_pos h, if_pos ((key _ _ _).1 h)]
  · rw [if_neg h, if_neg (fun h2 => h ((key _ _ _).2 h2))]

/-- C3 (counterexample). With x = 0, x_new = 1, temperature T = 2 and draw u = ½ the
stated rule accepts (exp(-1/2) > ½) while the test of the code rejects (exp(-1) < ½). -/
theorem accept_rule_temperature_counterexample :
    ¬ (acceptTest Real.exp (0 : ℝ) 1 (1 / 2) = true ↔
        ((1 : ℝ) < 0 ∨ Real.exp (-(1 - 0) / 2) > 1 / 2)) := by
  intro h
  have hR : ((1 : ℝ) < 0 ∨ Real.exp (-(1 - 0) / 2) > 1 / 2) := by
    right
    have h1 : (-(1 - 0) / 2 : ℝ) + 1 < Real.exp (-(1 - 0) / 2) :=
      Real.add_one_lt_exp (by norm_num)
    have h2 : (-(1 - 0) / 2 : ℝ) + 1 = 1 / 2 := by norm_num
    rw [h2] at h1
    exact h1
  have hL := h.mpr hR
  simp only [acceptTest, Bool.or_eq_true, decide_eq_true_eq] at hL
  rcases hL with hL | hL
  · norm_num at hL
  · have h3 : (1 : ℝ) + 1 < Real.exp 1 := Real.add_one_lt_exp (by norm_num)
    have h4 : Real.exp (0 - 1) = (Real.exp 1)⁻¹ := by
      rw [zero_sub, Real.exp_neg]
    rw [h4] at hL
    have h5 : (Real.exp 1)⁻¹ < (2 : ℝ)⁻¹ := by
      apply inv_strictAnti₀ (by norm_num)
      linarith
    norm_num at hL h5
    linarith

/-- C4. Leap-frog scheme.  `leap_frog` ignores the previous proposal model; every loop
body maps `(m, p)` to the half-kick / full-drift / half-kick step with gradient `A m - bT`
and `W` the full inverse mass matrix if `genMomKinetic`, the diagonal one otherwise; the
result is an iterate of this step from `(current model, proposed momentum)`, of at most
`nt` steps; it is the `nt`-fold iterate when the no-U-turn condition never holds; the
current model is unchanged. -/
theorem leap_frog_scheme (s : Sampler N K) (uturns : Nat) (wt : Bool) :
    (∀ m0 : Vec N K, leap_frog { s with proposedModel := m0 } uturns wt = leap_frog s uturns wt) ∧
    (∀ st : LoopState N K, phase (leap_frog_body wt st).sampler =
      lfStep st.sampler.dt st.sampler.A st.sampler.bT
        (if st.sampler.genMomKinetic then st.sampler.inverseMassMatrix
          else st.sampler.inverseMassMatrixDiagonal) (phase st.sampler)) ∧
    (∃ j, j ≤ s.nt ∧ (leap_frog s uturns wt).steps = j ∧
      phase (leap_frog s uturns wt).sampler =
        (lfStep s.dt s.A s.bT (kineticMatrix s))^[j] (s.currentModel, s.proposedMomentum)) ∧
    ((∀ j, 1 ≤ j → j ≤ s.nt → ¬ uturnAfter s j) →
      phase (leap_frog s uturns wt).sampler =
        (lfStep s.dt s.A s.bT (kineticMatrix s))^[s.nt] (s.currentModel, s.proposedMomentum)) ∧
    (leap_frog s uturns wt).sampler.currentModel = s.currentModel := by
  refine ⟨fun _ => rfl, ?_, ?_, ?_, ?_⟩
  · intro st
    rw [leap_frog_body_sampler]
    rfl
  · obtain ⟨j, hj, e1, e2⟩ := loop_exists_iterate wt s.nt (leap_frog_entry s uturns)
    refine ⟨j, hj, ?_, ?_⟩
    · rw [leap_frog, e2]
      simp [leap_frog_entry]
    · rw [leap_frog, e1, (iterate_body wt (leap_frog_entry s uturns) j).1]
      rfl
  · intro h
    have h2 : ∀ j, 1 ≤ j → j ≤ s.nt →
        uturn ((leap_frog_body wt)^[j] (leap_frog_entry s uturns)).sampler = false := by
      intro j hj1 hj2
      rw [← Bool.not_eq_true, uturn_iterate]
      exact h j hj1 hj2
    rw [leap_frog, loop_no_uturn wt s.nt _ h2, (iterate_body wt (leap_frog_entry s uturns) s.nt).1]
    rfl
  · obtain ⟨j, hj, e1, e2⟩ := loop_exists_iterate wt s.nt (leap_frog_entry s uturns)
    rw [leap_frog, e1, (iterate_body wt (leap_frog_entry s uturns) j).1]
    rfl

/-- Witness of C4: the example sampler runs its two steps without meeting the no-U-turn
condition and ends at the second iterate of the step. -/
theorem leap_frog_scheme_witness :
    (∀ j, 1 ≤ j → j ≤ exSampler.nt → ¬ uturnAfter exSampler j) ∧
    phase (leap_frog exSampler 0 false).sampler =
      (lfStep exSampler.dt exSampler.A exSampler.bT (kineticMatrix exSampler))^[exSampler.nt]
        (exSampler.currentModel, exSampler.proposedMomentum) :=
  ⟨exSampler_no_uturn_upto2,
    (leap_frog_scheme exSampler 0 false).2.2.2.1 exSampler_no_uturn_upto2⟩

/-- C5. No-U-turn termination.  With `m_start` the current model and `p_start` the
momentum at entry, `leap_frog` stops after the first step `k ≤ nt` at which both angles
are positive, having run `k` steps and raised the u-turn counter by one; when no step
up to `nt` meets the condition it runs `nt` steps and leaves the counter unchanged.  In
every case the counter is raised by at most one and at most `nt` steps are run. -/
theorem leap_frog_no_uturn_termination (s : Sampler N K) (uturns : Nat) (wt : Bool) :
    (∀ k, 1 ≤ k → k ≤ s.nt → uturnAfter s k → (∀ j, 1 ≤ j → j < k → ¬ uturnAfter s j) →
      (leap_frog s uturns wt).steps = k ∧ (leap_frog s uturns wt).uturns = uturns + 1 ∧
      phase (leap_frog s uturns wt).sampler =
        (samplerStep s)^[k] (s.currentModel, s.proposedMomentum)) ∧
    ((∀ j, 1 ≤ j → j ≤ s.nt → ¬ uturnAfter s j) →
      (leap_frog s uturns wt).steps = s.nt ∧ (leap_frog s uturns wt).uturns = uturns) ∧
    uturns ≤ (leap_frog s uturns wt).uturns ∧
    (leap_frog s uturns wt).uturns ≤ uturns + 1 ∧
    (leap_frog s uturns wt).steps ≤ s.nt := by
  have hiff : ∀ j, uturn ((leap_frog_body wt)^[j] (leap_frog_entry s uturns)).sampler = true ↔
      uturnAfter s j := fun j => uturn_iterate wt (leap_frog_entry s uturns) j
  refine ⟨?_, ?_, ?_⟩
  · intro k hk1 hk2 hk hlt
    have h2 : ∀ i, 1 ≤ i → i < k →
        uturn ((leap_frog_body wt)^[i] (leap_frog_entry s uturns)).sampler = false := by
      intro i hi1 hi2
      rw [← Bool.not_eq_true, hiff]
      exact hlt i hi1 hi2
    have e := loop_first_uturn wt s.nt (leap_frog_entry s uturns) k hk1 hk2 ((hiff k).2 hk) h2
    obtain ⟨b1, b2, b3⟩ := iterate_body wt (leap_frog_entry s uturns) k
    rw [leap_frog, e]
    refine ⟨?_, ?_, ?_⟩
    · show ((leap_frog_body wt)^[k] (leap_frog_entry s uturns)).steps = k
      rw [b2]; simp [leap_frog_entry]
    · show ((leap_frog_body wt)^[k] (leap_frog_entry s uturns)).uturns + 1 = uturns + 1
      rw [b3]; rfl
    · show phase ((leap_frog_body wt)^[k] (leap_frog_entry s uturns)).sampler = _
      rw [b1]; rfl
  · intro h
    have h2 : ∀ j, 1 ≤ j → j ≤ s.nt →
        uturn ((leap_frog_body wt)^[j] (leap_frog_entry s uturns)).sampler = false := by
      intro j hj1 hj2
      rw [← Bool.not_eq_true, hiff]
      exact h j hj1 hj2
    obtain ⟨b1, b2, b3⟩ := iterate_body wt (leap_frog_entry s uturns) s.nt
    rw [leap_frog, loop_no_uturn wt s.nt _ h2, b2, b3]
    simp [leap_frog_entry]
  · obtain ⟨a, b, c⟩ := loop_bounds wt s.nt (leap_frog_entry s uturns)
    refine ⟨a, b, ?_⟩
    have : (leap_frog_entry s uturns).steps = 0 := rfl
    rw [this] at c
    simpa [leap_frog] using c

/-- Witness of C5: the example sampler with five steps stops after the third step and
raises the counter from 7 to 8. -/
theorem leap_frog_no_uturn_termination_witness :
    (1 ≤ 3 ∧ 3 ≤ exSampler5.nt ∧ uturnAfter exSampler5 3 ∧
      ∀ j, 1 ≤ j → j < 3 → ¬ uturnAfter exSampler5 j) ∧
    (leap_frog exSampler5 7 false).steps = 3 ∧ (leap_frog exSampler5 7 false).uturns = 7 + 1 ∧
      phase (leap_frog exSampler5 7 false).sampler =
        (samplerStep exSampler5)^[3] (exSampler5.currentModel, exSampler5.proposedMomentum) :=
  have h3 : uturnAfter exSampler5 3 := exSampler_uturn3
  have hlt : ∀ j, 1 ≤ j → j < 3 → ¬ uturnAfter exSampler5 j :=
    fun j h1 h2 => exSampler_no_uturn_upto2 j h1 (by omega)
  ⟨⟨by decide, by decide, h3, hlt⟩,
    (leap_frog_no_uturn_termination exSampler5 7 false).1 3 (by decide) (by decide) h3 hlt⟩

/-- C6. Time-reversibility: when `leap_frog` from `(m, p)` runs its `nt` steps and ends
at `(m_end, p_end)`, and `leap_frog` from `(m_end, -p_end)` also runs its `nt` steps, the
second run ends at `(m, -p)`. -/
theorem leap_frog_time_reversible (s : Sampler N K) (u1 u2 : Nat) (wt1 wt2 : Bool)
    (h1 : (leap_frog s u1 wt1).steps = s.nt)
    (h2 : (leap_frog (reversed (leap_frog s u1 wt1).sampler) u2 wt2).steps = s.nt) :
    phase (leap_frog (reversed (leap_frog s u1 wt1).sampler) u2 wt2).sampler =
      (s.currentModel, -s.proposedMomentum) := by
  obtain ⟨j, _, e1, e2⟩ := leap_frog_result s u1 wt1
  have hj : j = s.nt := by rw [← e1, h1]
  subst hj
  obtain ⟨k, _, f1, f2⟩ := leap_frog_result (reversed (leap_frog s u1 wt1).sampler) u2 wt2
  have hk : k = s.nt := by rw [← f1, h2]
  subst hk
  rw [f2, e2]
  exact lfStep_iterate_flip s.dt s.A s.bT (kineticMatrix s) s.nt
    (s.currentModel, s.proposedMomentum)

/-- Witness of C6: the example sampler runs its two steps forward and, restarted with flipped
momentum where it stopped, its two steps backward, ending at the start. -/
theorem leap_frog_time_reversible_witness :
    (leap_frog exSampler 0 false).steps = exSampler.nt ∧
    (leap_frog (reversed (leap_frog exSampler 0 false).sampler) 0 false).steps = exSampler.nt ∧
    phase (leap_frog (reversed (leap_frog exSampler 0 false).sampler) 0 false).sampler =
      (exSampler.currentModel, -exSampler.proposedMomentum) :=
  have h1 : (leap_frog exSampler 0 false).steps = exSampler.nt :=
    leap_frog_steps_of_no_uturn exSampler 0 false exSampler_no_uturn_upto2
  have h2 : (leap_frog (reversed (leap_frog exSampler 0 false).sampler) 0 false).steps =
      exSampler.nt :=
    (leap_frog_steps_of_no_uturn exSamplerBack 0 false exSamplerBack_no_uturn).trans
      exSamplerBack_nt
  ⟨h1, h2, leap_frog_time_reversible exSampler 0 0 false false h1 h2⟩

/-- C7. Volume preservation.  The loop body of `leap_frog` acts on `(m, p)` as the affine
map with linear part `lfLinear` (half-kick, drift, half-kick) whose determinant is 1; the
`n`-step map is affine with linear part `lfLinear ^ n` of determinant 1; and for every base
point `z0` and edge vectors (the columns of `V`) the images of the edges under the `n`-step
map span the same signed volume, `det V`. -/
theorem leap_frog_volume_preserving (wt : Bool) (dt : K) (A : Matrix (Fin N) (Fin N) K)
    (b : Vec N K) (W : Matrix (Fin N) (Fin N) K) (n : Nat) :
    (∀ st : LoopState N K, toVec (phase (leap_frog_body wt st).sampler) =
      lfLinear st.sampler.dt st.sampler.A (kineticMatrix st.sampler) *ᵥ toVec (phase st.sampler) +
        lfShift st.sampler.dt st.sampler.A st.sampler.bT (kineticMatrix st.sampler)) ∧
    (∀ z, toVec (lfStep dt A b W z) = lfLinear dt A W *ᵥ toVec z + lfShift dt A b W) ∧
    (lfLinear dt A W).det = 1 ∧
    (∃ t : Fin N ⊕ Fin N → K, ∀ z : Vec N K × Vec N K,
      toVec ((lfStep dt A b W)^[n] z) = (lfLinear dt A W ^ n) *ᵥ toVec z + t) ∧
    (lfLinear dt A W ^ n).det = 1 ∧
    (∀ (z0 : Fin N ⊕ Fin N → K) (V : Matrix (Fin N ⊕ Fin N) (Fin N ⊕ Fin N) K),
      (Matrix.of fun i j => toVec ((lfStep dt A b W)^[n] (ofVec (z0 + fun k => V k j))) i -
        toVec ((lfStep dt A b W)^[n] (ofVec z0)) i).det = V.det) := by
  refine ⟨?_, lfStep_affine dt A b W, lfLinear_det dt A W, lfStep_iterate_affine dt A b W n, ?_, ?_⟩
  · intro st
    rw [leap_frog_body_sampler]
    exact lfStep_affine _ _ _ _ _
  · rw [Matrix.det_pow, lfLinear_det, one_pow]
  · intro z0 V
    rw [lfStep_iterate_edges, Matrix.det_mul, Matrix.det_pow, lfLinear_det, one_pow, one_mul]

/-- C8. Energy conservation under small Δt.  For a sampler with symmetric `A` and symmetric
inverse mass matrix `W` (the one selected by `genMomKinetic`, used both in the drift and
in the kinetic energy), fixed start `(m, p)` and `nt`, there is a constant `C` such that
for every `dt` with `|dt| ≤ 1` the energy at the end of `leap_frog` differs from the energy
at the start by at most `C dt²`. -/
theorem leap_frog_energy_error (s : Sampler N ℝ) (uturns : Nat) (wt : Bool) (hA : s.A.IsSymm)
    (hW : (kineticMatrix s).IsSymm) :
    ∃ C : ℝ, ∀ dt : ℝ, |dt| ≤ 1 →
      |energy (leap_frog { s with dt := dt } uturns wt).sampler -
        energy { s with dt := dt, proposedModel := s.currentModel }| ≤ C * dt ^ 2 := by
  let z0 : Vec N ℝ × Vec N ℝ := (s.currentModel, s.proposedMomentum)
  let F : ℝ → ℝ := fun dt => ∑ j in Finset.range (s.nt + 1),
    |(gradForm s ((lfStep dt s.A s.bT (kineticMatrix s))^[j] z0) - gradForm s z0) / 8|
  have hF : Continuous F := by
    apply continuous_finset_sum
    intro j _
    exact (((gradForm_continuous s).comp (lfStep_iterate_continuous s.A s.bT (kineticMatrix s) j z0)).sub
      continuous_const).div_const 8 |>.abs
  obtain ⟨C, hC⟩ := (isCompact_Icc (a := (-1 : ℝ)) (b := 1)).exists_bound_of_continuousOn hF.continuousOn
  refine ⟨C, fun dt hdt => ?_⟩
  obtain ⟨j, hj, _, e⟩ := leap_frog_result { s with dt := dt } uturns wt
  have hj' : j ≤ s.nt := hj
  rw [e]
  have key := shadow_iterate s hA hW dt j z0
  have hE : energy
        { ({ s with dt := dt } : Sampler N ℝ) with
          proposedModel := ((samplerStep { s with dt := dt })^[j]
            (({ s with dt := dt } : Sampler N ℝ).currentModel,
              ({ s with dt := dt } : Sampler N ℝ).proposedMomentum)).1
          proposedMomentum := ((samplerStep { s with dt := dt })^[j]
            (({ s with dt := dt } : Sampler N ℝ).currentModel,
              ({ s with dt := dt } : Sampler N ℝ).proposedMomentum)).2
          currentMomentum := ({ s with dt := dt } : Sampler N ℝ).proposedMomentum } -
      energy { s with dt := dt, proposedModel := s.currentModel } =
      hamiltonian s ((lfStep dt s.A s.bT (kineticMatrix s))^[j] z0) - hamiltonian s z0 := rfl
  rw [hE, key, abs_mul, abs_of_nonneg (sq_nonneg dt), mul_comm]
  apply mul_le_mul_of_nonneg_right _ (sq_nonneg dt)
  have hmem : dt ∈ Set.Icc (-1 : ℝ) 1 := abs_le.mp hdt
  have h1 := hC dt hmem
  rw [Real.norm_eq_abs] at h1
  have h2 : |(gradForm s ((lfStep dt s.A s.bT (kineticMatrix s))^[j] z0) - gradForm s z0) / 8| ≤ F dt :=
    Finset.single_le_sum (f := fun j => |(gradForm s ((lfStep dt s.A s.bT (kineticMatrix s))^[j] z0) - gradForm s z0) / 8|)
      (fun i _ => abs_nonneg _) (Finset.mem_range.mpr (Nat.lt_succ_of_le hj'))
  exact h2.trans ((le_abs_self _).trans h1)

/-- Witness of C8 on the real unit oscillators. -/
theorem leap_frog_energy_error_witness :
    (exOscillator ℝ).A.IsSymm ∧ (kineticMatrix (exOscillator ℝ)).IsSymm ∧
    ∃ C : ℝ, ∀ dt : ℝ, |dt| ≤ 1 →
      |energy (leap_frog { exOscillator ℝ with dt := dt } 0 false).sampler -
        energy { exOscillator ℝ with dt := dt, proposedModel := (exOscillator ℝ).currentModel }| ≤
        C * dt ^ 2 :=
  have hA : (exOscillator ℝ).A.IsSymm := Matrix.isSymm_one
  have hW : (kineticMatrix (exOscillator ℝ)).IsSymm := Matrix.isSymm_one
  ⟨hA, hW, leap_frog_energy_error (exOscillator ℝ) 0 false hA hW⟩

/-- C9. Accept/reject state update of one iteration of `sample`.  When the acceptance test
holds, afterwards the current model equals the proposed model, the stored energy is
`x_new`, the counter of accepted models is raised by one and exactly one record (the
proposed model with `x_new`) is appended to the samples file; when it fails, the current
model, the stored energy, the counter and the samples file are unchanged. -/
theorem sample_iteration_update (lib : Lib N K) (it : Nat) (st : SampleState N K) (d : Draw N K) :
    (acceptTest lib.exp st.x (x_new (propose lib it st d)) d.u = true →
      (sample_iteration lib it st d).sampler.currentModel =
        (sample_iteration lib it st d).sampler.proposedModel ∧
      (sample_iteration lib it st d).x = x_new (propose lib it st d) ∧
      (sample_iteration lib it st d).accepted = st.accepted + 1 ∧
      (sample_iteration lib it st d).samplesfile = st.samplesfile ++
        [((sample_iteration lib it st d).sampler.proposedModel, x_new (propose lib it st d))]) ∧
    (acceptTest lib.exp st.x (x_new (propose lib it st d)) d.u = false →
      (sample_iteration lib it st d).sampler.currentModel = st.sampler.currentModel ∧
      (sample_iteration lib it st d).x = st.x ∧
      (sample_iteration lib it st d).accepted = st.accepted ∧
      (sample_iteration lib it st d).samplesfile = st.samplesfile) := by
  obtain ⟨p1, p2, p3, p4, _, _⟩ := propose_frame lib it st d
  constructor
  · intro h
    rw [← p1] at h
    simp only [sample_iteration, h, if_true]
    cases h2 : (propose lib it st d).sampler.testBefore
    · simp [accept, h2, p2, p3]
    · simp [accept, h2, call_leap_frog, p2, p3]
  · intro h
    rw [← p1] at h
    simp only [sample_iteration, h, Bool.false_eq_true, if_false]
    exact ⟨p4, p1, p2, p3⟩

/-- Witness of C9: from the example state with stored energy 100 the proposal of energy 2
is accepted. -/
theorem sample_iteration_update_witness :
    acceptTest exLib.exp exState.x (x_new (propose exLib 1 exState exDraw)) exDraw.u = true ∧
    (sample_iteration exLib 1 exState exDraw).sampler.currentModel =
      (sample_iteration exLib 1 exState exDraw).sampler.proposedModel ∧
    (sample_iteration exLib 1 exState exDraw).x = x_new (propose exLib 1 exState exDraw) ∧
    (sample_iteration exLib 1 exState exDraw).accepted = exState.accepted + 1 ∧
    (sample_iteration exLib 1 exState exDraw).samplesfile = exState.samplesfile ++
      [((sample_iteration exLib 1 exState exDraw).sampler.proposedModel,
        x_new (propose exLib 1 exState exDraw))] :=
  ⟨exState_accept, (sample_iteration_update exLib 1 exState exDraw).1 exState_accept⟩

/-- C10. Evaluate-before-propagate path.  In HMC mode with `testBefore` set, in every state
reached by the loop of `sample` from the constructed sampler, at the acceptance test the
proposed model still equals the current model, the proposed momentum is the freshly drawn
one, no `leap_frog` was run for the proposal, hence `x_new` is χ at the current model plus
the kinetic energy of the fresh momentum; and `leap_frog` is called in the iteration
exactly when the proposal is accepted. -/
theorem test_before_path (lib : Lib N K) (prior : Prior N K) (data : Data M K)
    (model : ForwardModel M N K) (settings : Settings K) (d0 : Draw N K)
    (draws : Nat → Draw N K) (its : List Nat) (it : Nat) (d : Draw N K) (st : SampleState N K)
    (hH : settings.hamiltonianMonteCarlo = true) (hT : settings.testBefore = true)
    (hst : st = sample_loop lib draws its (sample_init (sampler lib prior data model settings d0))) :
    (propose lib it st d).sampler.proposedModel = st.sampler.currentModel ∧
    (propose lib it st d).sampler.currentModel = st.sampler.currentModel ∧
    (propose lib it st d).sampler.proposedMomentum =
      (propose_hamilton lib st.sampler d).proposedMomentum ∧
    (propose lib it st d).leapfrogCalls = st.leapfrogCalls ∧
    x_new (propose lib it st d) =
      chi { st.sampler with proposedModel := st.sampler.currentModel } +
        kineticEnergy (propose_hamilton lib st.sampler d) ∧
    ((sample_iteration lib it st d).leapfrogCalls = st.leapfrogCalls + 1 ↔
      acceptTest lib.exp st.x (x_new (propose lib it st d)) d.u = true) ∧
    ((sample_iteration lib it st d).leapfrogCalls = st.leapfrogCalls ↔
      acceptTest lib.exp st.x (x_new (propose lib it st d)) d.u = false) := by
  have hinv : testBeforeInv st := by
    rw [hst]
    exact sample_loop_inv lib draws its _ ⟨rfl, hH, hT⟩
  obtain ⟨h0, h1, h2⟩ := hinv
  obtain ⟨q1, q2, q3, q4⟩ := propose_hamilton_frame lib st.sampler d
  have hp := propose_testBefore lib it st d h1 h2
  have hx : x_new (propose lib it st d) =
      chi { st.sampler with proposedModel := st.sampler.currentModel } +
        kineticEnergy (propose_hamilton lib st.sampler d) := by
    rw [hp]
    simp only [x_new, q3, h1, if_true, energy]
    congr 1
    rw [propose_hamilton_eq, ← h0]
    rfl
  have hcalls : (sample_iteration lib it st d).leapfrogCalls =
      if acceptTest lib.exp st.x (x_new (propose lib it st d)) d.u = true
        then st.leapfrogCalls + 1 else st.leapfrogCalls := by
    unfold sample_iteration
    rw [hp]
    by_cases ha : acceptTest lib.exp st.x
        (x_new { st with sampler := propose_hamilton lib st.sampler d }) d.u = true
    · simp only [ha, if_true, accept, q4, h2, call_leap_frog]
    · simp only [ha, if_false, Bool.false_eq_true]
  refine ⟨?_, ?_, ?_, ?_, hx, ?_, ?_⟩
  · rw [hp]; show (propose_hamilton lib st.sampler d).proposedModel = _; rw [q2, h0]
  · rw [hp]; exact q1
  · rw [hp]
  · rw [hp]
  · rw [hcalls]
    by_cases ha : acceptTest lib.exp st.x (x_new (propose lib it st d)) d.u = true
    · simp [ha]
    · simp [ha]
  · rw [hcalls]
    by_cases ha : acceptTest lib.exp st.x (x_new (propose lib it st d)) d.u = true
    · simp [ha]
    · simp [ha]

/-- Witness of C10: the second iteration of the example chain. -/
theorem test_before_path_witness :
    exSettings.hamiltonianMonteCarlo = true ∧ exSettings.testBefore = true ∧
    x_new (propose exLib 2
        (sample_loop exLib (fun _ => exDraw) [1] (sample_init exSampler)) exDraw) =
      chi { (sample_loop exLib (fun _ => exDraw) [1] (sample_init exSampler)).sampler with
          proposedModel :=
            (sample_loop exLib (fun _ => exDraw) [1] (sample_init exSampler)).sampler.currentModel } +
        kineticEnergy (propose_hamilton exLib
          (sample_loop exLib (fun _ => exDraw) [1] (sample_init exSampler)).sampler exDraw) :=
  ⟨rfl, rfl, (test_before_path exLib exPrior exData exModel exSettings exDraw (fun _ => exDraw)
    [1] 2 exDraw _ rfl rfl rfl).2.2.2.2.1⟩

/-- C11 (evaluation at the failing input). Metropolis-Hastings with `testBefore` set: the
model (0, 1) is drawn from the prior and passes the acceptance test with χ = 0, then the
accept branch calls `leap_frog`, and the model made current and written with the scalar 0 is
the end of a trajectory from the previous current model, not the model that was drawn. -/
theorem metropolis_accept_runs_leap_frog :
    exSamplerMH.hmc = false ∧ exSamplerMH.testBefore = true ∧
    (propose exLib 1 (sample_init exSamplerMH) exDrawMH).sampler.proposedModel = exDrawMH.model ∧
    acceptTest exLib.exp (sample_init exSamplerMH).x
      (x_new (propose exLib 1 (sample_init exSamplerMH) exDrawMH)) exDrawMH.u = true ∧
    (sample_iteration exLib 1 (sample_init exSamplerMH) exDrawMH).leapfrogCalls = 1 ∧
    (sample_iteration exLib 1 (sample_init exSamplerMH) exDrawMH).sampler.currentModel =
      ![15 / 16, 17 / 16] ∧
    (sample_iteration exLib 1 (sample_init exSamplerMH) exDrawMH).sampler.currentModel ≠
      exDrawMH.model ∧
    (sample_iteration exLib 1 (sample_init exSamplerMH) exDrawMH).samplesfile =
      [(![0, 0], 3 / 2), (![15 / 16, 17 / 16], 0)] := by
  have hcur : (sample_iteration exLib 1 (sample_init exSamplerMH) exDrawMH).sampler.currentModel =
      ![15 / 16, 17 / 16] := by
    rw [exSamplerMH_iteration]
    exact exSamplerMH_leap_frog
  refine ⟨rfl, rfl, rfl, exSamplerMH_accept, ?_, hcur, ?_, ?_⟩
  · rw [exSamplerMH_iteration]; rfl
  · rw [hcur]
    intro h
    have := congrFun h 0
    simp [exDrawMH] at this
  · rw [exSamplerMH_iteration]
    show (sample_init exSamplerMH).samplesfile ++ [(_, 0)] = _
    have h1 : (sample_init exSamplerMH).samplesfile = [(![0, 0], (sample_init exSamplerMH).x)] := rfl
    rw [h1, exSamplerMH_init_x]
    simp only [List.singleton_append]
    congr 2
    exact congrArg (fun v => (v, (0 : ℚ))) exSamplerMH_leap_frog

/-- C12 (amended). In HMC mode, in every state reached by the loop of `sample` from the
constructed sampler, the last line of the samples file holds the current model and the
stored energy; initially the stored energy is the energy of the sampler, whose proposed and
current model agree.  With `testBefore` unset an accepted iteration stores the energy of the
state it leaves, whose current model is the proposed model.  With `testBefore` set an
accepted iteration stores χ at the previous current model plus the kinetic energy of the
fresh momentum, while the current model becomes the end of the trajectory.  A rejected
iteration keeps both. -/
theorem chain_energy_invariant (lib : Lib N K) (prior : Prior N K) (data : Data M K)
    (model : ForwardModel M N K) (settings : Settings K) (d0 : Draw N K)
    (draws : Nat → Draw N K) (its : List Nat) (it : Nat) (d : Draw N K) (st : SampleState N K)
    (hH : settings.hamiltonianMonteCarlo = true)
    (hst : st = sample_loop lib draws its (sample_init (sampler lib prior data model settings d0))) :
    st.samplesfile.getLast? = some (st.sampler.currentModel, st.x) ∧
    ((sample_init (sampler lib prior data model settings d0)).x =
        energy (sampler lib prior data model settings d0) ∧
      (sampler lib prior data model settings d0).currentModel =
        (sampler lib prior data model settings d0).proposedModel) ∧
    (settings.testBefore = false →
      acceptTest lib.exp st.x (x_new (propose lib it st d)) d.u = true →
      (sample_iteration lib it st d).x = energy (sample_iteration lib it st d).sampler ∧
      (sample_iteration lib it st d).sampler.currentModel =
        (sample_iteration lib it st d).sampler.proposedModel) ∧
    (settings.testBefore = true →
      acceptTest lib.exp st.x (x_new (propose lib it st d)) d.u = true →
      (sample_iteration lib it st d).x =
        chi { st.sampler with proposedModel := st.sampler.currentModel } +
          kineticEnergy (propose_hamilton lib st.sampler d) ∧
      (sample_iteration lib it st d).sampler.currentModel =
        (leap_frog (propose_hamilton lib st.sampler d) st.uturns
          (decide (it = st.sampler.proposals - 1))).sampler.proposedModel) ∧
    (acceptTest lib.exp st.x (x_new (propose lib it st d)) d.u = false →
      (sample_iteration lib it st d).x = st.x ∧
      (sample_iteration lib it st d).sampler.currentModel = st.sampler.currentModel) := by
  obtain ⟨fl1, fl2⟩ := sample_loop_flags lib draws its
    (sample_init (sampler lib prior data model settings d0))
  rw [← hst] at fl1 fl2
  have hh : st.sampler.hmc = true := fl1.trans hH
  have htb : st.sampler.testBefore = settings.testBefore := fl2
  obtain ⟨p1, p2, p3, p4, p5, p6⟩ := propose_frame lib it st d
  obtain ⟨q1, q2, q3, q4⟩ := propose_hamilton_frame lib st.sampler d
  refine ⟨?_, ⟨?_, rfl⟩, ?_, ?_, ?_⟩
  · rw [hst]
    exact sample_loop_record lib draws its _ rfl
  · show (if settings.hamiltonianMonteCarlo = true then _ else _) = _
    rw [if_pos hH]
  · intro hT ha
    rw [← p1] at ha
    have h6 : (propose lib it st d).sampler.testBefore = false := by rw [p6, htb, hT]
    have h5 : (propose lib it st d).sampler.hmc = true := by rw [p5, hh]
    simp only [sample_iteration, ha, if_true]
    simp only [accept, h6, Bool.false_eq_true, if_false, x_new, h5, if_true]
    exact ⟨rfl, trivial⟩
  · intro hT ha
    have h2 : st.sampler.testBefore = true := htb.trans hT
    have hinv : testBeforeInv st := by
      rw [hst]
      exact sample_loop_inv lib draws its _ ⟨rfl, hH, hT⟩
    have hp := propose_testBefore lib it st d hh h2
    rw [← p1] at ha
    simp only [sample_iteration, ha, if_true]
    rw [hp]
    simp only [accept, q4, h2, if_true, call_leap_frog, x_new, q3, hh, energy]
    refine ⟨?_, ?_⟩
    · congr 1
      rw [propose_hamilton_eq, ← hinv.1]
      rfl
    · have hpr : (propose_hamilton lib st.sampler d).proposals = st.sampler.proposals := by
        rw [propose_hamilton_eq]
      rw [hpr]
  · intro ha
    rw [← p1] at ha
    simp only [sample_iteration, ha, Bool.false_eq_true, if_false]
    exact ⟨p1, p4⟩

/-- Witness of C12: the first iteration of the example chain, which is accepted. -/
theorem chain_energy_invariant_witness :
    exSettings.hamiltonianMonteCarlo = true ∧ exSettings.testBefore = true ∧
    acceptTest exLib.exp (sample_init exSampler).x
      (x_new (propose exLib 1 (sample_init exSampler) exDrawZero)) exDrawZero.u = true ∧
    (sample_iteration exLib 1 (sample_init exSampler) exDrawZero).x =
      chi { (sample_init exSampler).sampler with
          proposedModel := (sample_init exSampler).sampler.currentModel } +
        kineticEnergy (propose_hamilton exLib (sample_init exSampler).sampler exDrawZero) :=
  ⟨rfl, rfl, exSamplerRest_accept,
    ((chain_energy_invariant exLib exPrior exData exModel exSettings exDraw (fun _ => exDraw)
      [] 1 exDrawZero (sample_init exSampler) rfl rfl).2.2.2.1 rfl exSamplerRest_accept).1⟩

/-- C12 (counterexample). Example chain with `testBefore` set, first iteration run with the
momentum at rest: the proposal is accepted with stored energy 3/2, the current model
becomes (5/16, 19/16), where the energy with the momentum then held is 1281/1024 and the
energy with the fresh momentum is 33/128. -/
theorem chain_energy_test_before_counterexample :
    exSampler.hmc = true ∧ exSampler.testBefore = true ∧
    exChain1.accepted = (sample_init exSampler).accepted + 1 ∧
    exChain1.sampler.currentModel = ![5 / 16, 19 / 16] ∧
    exChain1.x = 3 / 2 ∧
    energy exChain1.sampler = 1281 / 1024 ∧
    hamiltonian exChain1.sampler (exChain1.sampler.currentModel, exDrawZero.momentum) = 33 / 128 ∧
    exChain1.x ≠ energy exChain1.sampler ∧
    exChain1.x ≠ hamiltonian exChain1.sampler (exChain1.sampler.currentModel, exDrawZero.momentum) := by
  have hx : exChain1.x = 3 / 2 := by rw [exChain1_eq]; rfl
  have he : energy exChain1.sampler = 1281 / 1024 := by
    rw [exChain1_sampler]
    exact exSamplerRest_end_energy
  have hh : hamiltonian exChain1.sampler (exChain1.sampler.currentModel, exDrawZero.momentum) =
      33 / 128 := by
    rw [exChain1_sampler]
    exact exSamplerRest_end_chi
  refine ⟨rfl, rfl, ?_, ?_, hx, he, hh, ?_, ?_⟩
  · rw [exChain1_eq]; rfl
  · rw [exChain1_sampler]
  · rw [hx, he]; norm_num
  · rw [hx, hh]; norm_num

/-- C13 (amended). The footer written by `sample` equals the number of loop iterations in
which the accept branch was taken plus one (the counter starts at 1 for the starting model),
which is the number of sample lines written. -/
theorem footer_counts_records (lib : Lib N K) (s : Sampler N K) (draws : Nat → Draw N K) :
    (sample lib s draws).2.footer =
      acceptedIterations lib draws (List.range' 1 (s.proposals - 1)) (sample_init s) + 1 ∧
    (sample lib s draws).2.footer = (sample lib s draws).2.lines.length := by
  obtain ⟨a, b⟩ := sample_loop_counts lib draws (List.range' 1 (s.proposals - 1)) (sample_init s)
  have h1 : (sample_init s).accepted = 1 := rfl
  have h2 : (sample_init s).samplesfile.length = 1 := rfl
  simp only [sample]
  rw [a, b, h1, h2]
  omega

/-- C13 (counterexample). With a single proposal the loop has no iteration, no proposal is
accepted, and the footer is 1. -/
theorem footer_counterexample :
    1 ≤ exSamplerP1.proposals ∧
    acceptedIterations exLib (fun _ => exDraw) (List.range' 1 (exSamplerP1.proposals - 1))
      (sample_init exSamplerP1) = 0 ∧
    (sample exLib exSamplerP1 (fun _ => exDraw)).2.footer = 1 ∧
    (sample exLib exSamplerP1 (fun _ => exDraw)).2.footer ≠
      acceptedIterations exLib (fun _ => exDraw) (List.range' 1 (exSamplerP1.proposals - 1))
        (sample_init exSamplerP1) := by
  refine ⟨by decide, rfl, rfl, ?_⟩
  show (1 : Nat) ≠ 0
  decide

/-- C14. Mass-matrix construction in the constructor: `A = Σ_m⁻¹ + Gᵀ Σ_d⁻¹ G`, the mass
matrix is `gravity • A`, the stored factor is `CholeskyDecompose` of it and the stored
inverse is `L⁻ᵀ L⁻¹`; when the factor satisfies `L Lᵀ = M` and `InvertLowerTriangular`
returns a left inverse of `L`, the stored inverse is symmetric and a two-sided inverse
of the mass matrix. -/
theorem mass_matrix_inverse (lib : Lib N K) (prior : Prior N K) (data : Data M K)
    (model : ForwardModel M N K) (settings : Settings K) (d0 : Draw N K)
    (hL : (sampler lib prior data model settings d0).CholeskyLowerMassMatrix *
        (sampler lib prior data model settings d0).CholeskyLowerMassMatrixᵀ =
      (sampler lib prior data model settings d0).massMatrix)
    (hI : lib.InvertLowerTriangular (sampler lib prior data model settings d0).CholeskyLowerMassMatrix *
        (sampler lib prior data model settings d0).CholeskyLowerMassMatrix = 1) :
    (sampler lib prior data model settings d0).A =
      prior.inv_cov_m + model.gᵀ * data.inv_cov_d * model.g ∧
    (sampler lib prior data model settings d0).massMatrix =
      settings.gravity • (sampler lib prior data model settings d0).A ∧
    (sampler lib prior data model settings d0).CholeskyLowerMassMatrix =
      lib.CholeskyDecompose (sampler lib prior data model settings d0).massMatrix ∧
    (sampler lib prior data model settings d0).inverseMassMatrix =
      (lib.InvertLowerTriangular (sampler lib prior data model settings d0).CholeskyLowerMassMatrix)ᵀ *
        lib.InvertLowerTriangular (sampler lib prior data model settings d0).CholeskyLowerMassMatrix ∧
    (sampler lib prior data model settings d0).inverseMassMatrix.IsSymm ∧
    (sampler lib prior data model settings d0).inverseMassMatrix *
      (sampler lib prior data model settings d0).massMatrix = 1 ∧
    (sampler lib prior data model settings d0).massMatrix *
      (sampler lib prior data model settings d0).inverseMassMatrix = 1 :=
  ⟨rfl, rfl, rfl, rfl, cholesky_inverse _ _ _ hL hI⟩

/-- Witness of C14 on the example with mass matrix 4 I. -/
theorem mass_matrix_inverse_witness :
    (sampler exLibChol exPrior exData exModelZero exSettingsG2 exDraw).inverseMassMatrix.IsSymm ∧
    (sampler exLibChol exPrior exData exModelZero exSettingsG2 exDraw).inverseMassMatrix *
      (sampler exLibChol exPrior exData exModelZero exSettingsG2 exDraw).massMatrix = 1 ∧
    (sampler exLibChol exPrior exData exModelZero exSettingsG2 exDraw).massMatrix *
      (sampler exLibChol exPrior exData exModelZero exSettingsG2 exDraw).inverseMassMatrix = 1 :=
  (mass_matrix_inverse exLibChol exPrior exData exModelZero exSettingsG2 exDraw
    exChol_factor exChol_inverse).2.2.2.2

/-- C17 (amended). Reversibility of `leap_frog` as a whole when both runs execute the same
number of steps: if `leap_frog` started at `(m, p)` ends at `(m', p')` and `leap_frog` started
at `(m', -p')` runs as many steps as the first run, then it ends at `(m, -p)`. -/
theorem leap_frog_reversible_equal_steps (s : Sampler N K) (u1 u2 : Nat) (wt1 wt2 : Bool)
    (h : (leap_frog (reversed (leap_frog s u1 wt1).sampler) u2 wt2).steps =
      (leap_frog s u1 wt1).steps) :
    phase (leap_frog (reversed (leap_frog s u1 wt1).sampler) u2 wt2).sampler =
      (s.currentModel, -s.proposedMomentum) := by
  obtain ⟨j, _, e1, e2⟩ := leap_frog_result s u1 wt1
  obtain ⟨k, _, f1, f2⟩ := leap_frog_result (reversed (leap_frog s u1 wt1).sampler) u2 wt2
  have hk : k = j := by rw [← f1, h, e1]
  subst hk
  rw [f2, e2]
  exact lfStep_iterate_flip s.dt s.A s.bT (kineticMatrix s) k
    (s.currentModel, s.proposedMomentum)

/-- Witness of C17: the two-step example run forward and backward. -/
theorem leap_frog_reversible_equal_steps_witness :
    (leap_frog (reversed (leap_frog exSampler 0 false).sampler) 0 false).steps =
      (leap_frog exSampler 0 false).steps ∧
    phase (leap_frog (reversed (leap_frog exSampler 0 false).sampler) 0 false).sampler =
      (exSampler.currentModel, -exSampler.proposedMomentum) :=
  have h1 : (leap_frog exSampler 0 false).steps = exSampler.nt :=
    leap_frog_steps_of_no_uturn exSampler 0 false exSampler_no_uturn_upto2
  have h2 : (leap_frog (reversed (leap_frog exSampler 0 false).sampler) 0 false).steps =
      exSampler.nt :=
    (leap_frog_steps_of_no_uturn exSamplerBack 0 false exSamplerBack_no_uturn).trans
      exSamplerBack_nt
  ⟨h2.trans h1.symm, leap_frog_reversible_equal_steps exSampler 0 0 false false (h2.trans h1.symm)⟩

/-- C17 (counterexample). The four-step example stops after three steps by the no-U-turn
exit; restarted there with flipped momentum it runs four steps and ends at (-3/8, 3/8),
not at the start. -/
theorem leap_frog_whole_map_counterexample :
    phase (leap_frog exSampler4 0 false).sampler = (![17 / 32, 47 / 32], ![-85 / 64, 21 / 64]) ∧
    (leap_frog exSampler4 0 false).steps = 3 ∧
    phase (leap_frog (reversed (leap_frog exSampler4 0 false).sampler) 0 false).sampler =
      (![-3 / 8, 3 / 8], ![-5 / 16, 21 / 16]) ∧
    phase (leap_frog (reversed (leap_frog exSampler4 0 false).sampler) 0 false).sampler ≠
      (exSampler4.currentModel, -exSampler4.proposedMomentum) := by
  have hb : phase (leap_frog (reversed (leap_frog exSampler4 0 false).sampler) 0 false).sampler =
      (![-3 / 8, 3 / 8], ![-5 / 16, 21 / 16]) := exSampler4Back_leap_frog
  refine ⟨?_, exSampler4_leap_frog.1, hb, ?_⟩
  · rw [exSampler4_leap_frog.2]; rfl
  · rw [hb]
    intro h
    have h1 := congrFun (congrArg Prod.fst h) 1
    have h2 : exSampler4.currentModel = ![0, 0] := rfl
    rw [h2] at h1
    simp at h1

end Claims

/-! ## Claims on the command-line options -/

section ParseClaims

variable {K : Type}

/-- C15 (amended). Configuration errors do not end the program.  For arguments with
`argc ≥ 2` and no help option `parse_input` returns settings.  A numeric or boolean option
followed by a value that does not parse writes `Invalid input <value> for option <flag>` to
standard error, leaves the settings unchanged and returns; an argument that matches no
branch (and is followed by no help option) is passed over without a message. -/
theorem parse_input_reports_and_returns (rd : StreamReaders K) :
    (∀ (argv : List String) (s : InversionSettings K) (e : List String), 2 ≤ argv.length →
      (∀ a ∈ argv, a ≠ "-h" ∧ a ≠ "--help") →
      ∃ s1 e1, parse_input rd argv s e = .returned s1 e1) ∧
    (∀ flag value : String,
      flag ∈ ["-mtype", "--massmatrixtype", "-nt", "--trajectorysteps", "-ns",
        "--numberofsamples"] →
      rd.read_long_unsigned value = none →
      ∀ (prog : String) (s : InversionSettings K) (e : List String),
        parse_input rd [prog, flag, value] s e = .returned s (e ++ [invalidInput flag value])) ∧
    (∀ flag value : String,
      flag ∈ ["-t", "--temperature", "-dt", "--timestep"] →
      rd.read_double value = none →
      ∀ (prog : String) (s : InversionSettings K) (e : List String),
        parse_input rd [prog, flag, value] s e = .returned s (e ++ [invalidInput flag value])) ∧
    (∀ flag value : String,
      flag ∈ ["-at", "--adapttimestep", "-e", "--ergodic", "-gmp", "--correlatedmomenta", "-gmc",
        "--generalkinetic", "-Hb", "--hamiltonianbefore", "-an", "--algorithmnew"] →
      rd.read_boolean value = none →
      ∀ (prog : String) (s : InversionSettings K) (e : List String),
        parse_input rd [prog, flag, value] s e = .returned s (e ++ [invalidInput flag value])) ∧
    (∀ flag value : String, applyOption rd flag value = none → ¬ (flag = "-h" ∨ flag = "--help") →
      ¬ (value = "-h" ∨ value = "--help") →
      ∀ (prog : String) (s : InversionSettings K) (e : List String),
        parse_input rd [prog, flag, value] s e = .returned s e) := by
  refine ⟨?_, ?_, ?_, ?_, ?_⟩
  · intro argv s e hlen hhelp
    obtain ⟨F, m, _, h⟩ := parse_input_returns rd argv hlen hhelp
    exact ⟨F s, e ++ m, h s e⟩
  · intro flag value hf hr prog s e
    simp only [List.mem_cons, List.mem_singleton, List.not_mem_nil, or_false] at hf
    rcases hf with rfl | rfl | rfl | rfl | rfl | rfl <;>
      simp [parse_input, parse_loop, applyOption, parse_long_unsigned, hr]
  · intro flag value hf hr prog s e
    simp only [List.mem_cons, List.mem_singleton, List.not_mem_nil, or_false] at hf
    rcases hf with rfl | rfl | rfl | rfl <;>
      simp [parse_input, parse_loop, applyOption, parse_double, hr]
  · intro flag value hf hr prog s e
    simp only [List.mem_cons, List.mem_singleton, List.not_mem_nil, or_false] at hf
    rcases hf with rfl | rfl | rfl | rfl | rfl | rfl | rfl | rfl | rfl | rfl | rfl | rfl <;>
      simp [parse_input, parse_loop, applyOption, parse_boolean, hr]
  · intro flag value hn hh hv prog s e
    simp [parse_input, parse_loop, hn, hh, hv]

/-- Witness of C15: `-nt abc`. -/
theorem parse_input_reports_and_returns_witness :
    "-nt" ∈ ["-mtype", "--massmatrixtype", "-nt", "--trajectorysteps", "-ns",
        "--numberofsamples"] ∧
    exReaders.read_long_unsigned "abc" = none ∧
    parse_input exReaders ["hmc", "-nt", "abc"] (defaultSettings ℚ) [] =
      .returned (defaultSettings ℚ) ([] ++ [invalidInput "-nt" "abc"]) :=
  ⟨by simp, rfl,
    (parse_input_reports_and_returns exReaders).2.1 "-nt" "abc" (by simp) rfl "hmc"
      (defaultSettings ℚ) []⟩

/-- C15 (counterexample). The malformed value in `-nt abc` and the unknown option `-im` both
let `parse_input` return the default settings, the first with one line on standard error. -/
theorem parse_input_abort_counterexample :
    exReaders.read_long_unsigned "abc" = none ∧
    parse_input exReaders ["hmc", "-nt", "abc"] (defaultSettings ℚ) [] =
      .returned (defaultSettings ℚ) ["Invalid input abc for option -nt"] ∧
    applyOption exReaders "-im" "matrix.txt" = none ∧
    parse_input exReaders ["hmc", "-im", "matrix.txt"] (defaultSettings ℚ) [] =
      .returned (defaultSettings ℚ) [] :=
  ⟨rfl, rfl, rfl, rfl⟩

/-- C16. Idempotence of the settings parse: for arguments with `argc ≥ 2` and no help option,
every parse from the same settings returns the same settings `s1`, whatever was written to
standard error before, and parsing the same arguments again from `s1` returns `s1`. -/
theorem parse_input_idempotent (rd : StreamReaders K) (argv : List String)
    (s : InversionSettings K) (hlen : 2 ≤ argv.length)
    (hhelp : ∀ a ∈ argv, a ≠ "-h" ∧ a ≠ "--help") :
    ∃ s1, (∀ e, ∃ e1, parse_input rd argv s e = .returned s1 e1) ∧
      (∀ e, ∃ e1, parse_input rd argv s1 e = .returned s1 e1) := by
  obtain ⟨F, m, hF, h⟩ := parse_input_returns rd argv hlen hhelp
  refine ⟨F s, fun e => ⟨e ++ m, h s e⟩, fun e => ⟨e ++ m, ?_⟩⟩
  rw [h (F s) e, overrides_idem hF s]

/-- Witness of C16: an option given twice and a value that does not parse. -/
theorem parse_input_idempotent_witness :
    2 ≤ ["hmc", "-nt", "20", "-dt", "fast", "-nt", "0"].length ∧
    (∀ a ∈ ["hmc", "-nt", "20", "-dt", "fast", "-nt", "0"], a ≠ "-h" ∧ a ≠ "--help") ∧
    ∃ s1, (∀ e, ∃ e1, parse_input exReaders ["hmc", "-nt", "20", "-dt", "fast", "-nt", "0"]
        (defaultSettings ℚ) e = .returned s1 e1) ∧
      (∀ e, ∃ e1, parse_input exReaders ["hmc", "-nt", "20", "-dt", "fast", "-nt", "0"] s1 e =
        .returned s1 e1) :=
  have h1 : 2 ≤ ["hmc", "-nt", "20", "-dt", "fast", "-nt", "0"].length := by decide
  have h2 : ∀ a ∈ ["hmc", "-nt", "20", "-dt", "fast", "-nt", "0"], a ≠ "-h" ∧ a ≠ "--help" := by
    decide
  ⟨h1, h2, parse_input_idempotent exReaders _ (defaultSettings ℚ) h1 h2⟩

end ParseClaims

end hmc
